import Mathlib

/-!
# Verification of the Zeek → NSL-KDD converter (`zeek_to_nslkdd_v2.py`)

A shallow embedding of the log-correlation and feature-computation engine of the
repository, together with theorems checking the specification's claims against it.

Strings are manipulated through structural character-list primitives so that every
definition evaluates inside the kernel.  Python floats are modelled by `ℚ`;
Python exceptions that abort a pass are modelled by `Option`.
-/

namespace Zeek

/-! ## String primitives -/

/-- `listHasPre p s`: the character list `p` is a leading segment of `s`. -/
def listHasPre : List Char → List Char → Bool
  | [], _ => true
  | _ :: _, [] => false
  | p :: ps, c :: cs => p == c && listHasPre ps cs

/-- Python's `pat in s` on character lists. -/
def listHasSub (pat : List Char) : List Char → Bool
  | [] => pat.isEmpty
  | c :: cs => listHasPre pat (c :: cs) || listHasSub pat cs

/-- Split a character list at every occurrence of `sep` (Python `str.split(sep)`
for a one-character separator: `"".split` gives `[""]`, separators at the ends
give empty parts). -/
def splitOnCharAux (sep : Char) (acc : List Char) : List Char → List (List Char)
  | [] => [acc.reverse]
  | c :: cs =>
      if c == sep then acc.reverse :: splitOnCharAux sep [] cs
      else splitOnCharAux sep (c :: acc) cs

def strSplitOnChar (sep : Char) (s : String) : List String :=
  (splitOnCharAux sep [] s.data).map String.mk

def strStarts (s pat : String) : Bool := listHasPre pat.data s.data

def strEnds (s pat : String) : Bool := listHasPre pat.data.reverse s.data.reverse

def strHasChar (s : String) (c : Char) : Bool := s.data.any (· == c)

/-- Python `pat in s`. -/
def strHasSub (s pat : String) : Bool := listHasSub pat.data s.data

def strEmpty (s : String) : Bool := s.data.isEmpty

def strDropN (s : String) (n : Nat) : String := String.mk (s.data.drop n)

def strLower (s : String) : String := String.mk (s.data.map Char.toLower)

/-- Python `str.strip()` (whitespace at both ends). -/
def strTrim (s : String) : String :=
  String.mk (((s.data.dropWhile Char.isWhitespace).reverse.dropWhile Char.isWhitespace).reverse)

def digitsToNat (l : List Char) : Nat := l.foldl (fun n c => n * 10 + (c.toNat - 48)) 0

/-- Python `str.isdigit()` (ASCII digits): nonempty and all digits. -/
def allDigits (l : List Char) : Bool := !l.isEmpty && l.all Char.isDigit

/-! ## Executable rational arithmetic

Python floats are modelled by `ℚ`.  Batteries marks `Rat.add`, `Rat.sub`,
`Rat.mul` and `Rat.inv` irreducible, which blocks kernel evaluation, so the
model computes through the reducible constructors `mkRat` / `Rat.divInt`;
bridging lemmas below identify these with the standard operations. -/

def ratAdd (a b : ℚ) : ℚ := mkRat (a.num * (b.den : Int) + b.num * (a.den : Int)) (a.den * b.den)

def ratSub (a b : ℚ) : ℚ := mkRat (a.num * (b.den : Int) - b.num * (a.den : Int)) (a.den * b.den)

def ratMul (a b : ℚ) : ℚ := mkRat (a.num * b.num) (a.den * b.den)

def ratDiv (a b : ℚ) : ℚ := Rat.divInt (a.num * (b.den : Int)) ((a.den : Int) * b.num)

def ratPow10 (n : Nat) : ℚ := ((10 ^ n : ℕ) : ℚ)

def ratMax (a b : ℚ) : ℚ := if a ≤ b then b else a

/-- Model of Python `float(s)` restricted to the plain decimal forms
`[-]digits`, `[-]digits.digits`, `[-].digits`, `[-]digits.` — the only forms
reachable from Zeek timestamp fields (no exponents, infinities, `+` signs or
surrounding whitespace are modelled). -/
def parseTsQ (s : String) : Option ℚ :=
  let body := if strStarts s "-" then s.data.drop 1 else s.data
  let mag : List Char → List Char → ℚ := fun ip fp =>
    ratAdd (digitsToNat ip : ℚ) (ratDiv (digitsToNat fp : ℚ) (ratPow10 fp.length))
  let signed : ℚ → ℚ := fun q => if strStarts s "-" then -q else q
  match splitOnCharAux '.' [] body with
  | [ip] => if allDigits ip then some (signed (digitsToNat ip : ℚ)) else none
  | [ip, fp] =>
      if ip.all Char.isDigit && fp.all Char.isDigit && !(ip.isEmpty && fp.isEmpty) then
        some (signed (mag ip fp))
      else none
  | _ => none

/-- `ts.replace('.', '').replace('-', '')` from the timestamp validation. -/
def stripDotsDashes (s : String) : String :=
  String.mk (s.data.filter (fun c => !(c == '.') && !(c == '-')))

/-- The source's timestamp validation (both ingest paths):
`not ts or '\x00' in ts or not ts.replace('.', '').replace('-', '').isdigit()`
means the record is dropped; `validTsStr` is the complement, for a `ts` that is
a present string. -/
def validTsStr (ts : String) : Bool :=
  !(strEmpty ts) && !(strHasChar ts (Char.ofNat 0)) && allDigits (stripDotsDashes ts).data

/-! ## Association lists

Python `dict`s preserve insertion order; updating an existing key replaces its
value in place, a new key is appended at the end. -/

def lookupA {α β : Type _} [DecidableEq α] : List (α × β) → α → Option β
  | [], _ => none
  | p :: rest, k => if p.1 = k then some p.2 else lookupA rest k

def setA {α β : Type _} [DecidableEq α] : List (α × β) → α → β → List (α × β)
  | [], k, v => [(k, v)]
  | p :: rest, k, v => if p.1 = k then (k, v) :: rest else p :: setA rest k v

/-- Python truthiness of an optional string: `None` and `''` are falsy. -/
def truthy : Option String → Bool
  | none => false
  | some s => !(strEmpty s)

/-! ## Records and connections

A parsed log record maps a field name to an optional string value (`-` in the
log is stored as `None` by the parser, i.e. `none` here).  `lookupA r f`
distinguishes an absent field (`none`) from a field stored as `None`
(`some none`); `Record.getV` collapses the two, like Python's `record.get(f)`. -/

abbrev Record : Type := List (String × Option String)

def Record.getV (r : Record) (f : String) : Option String :=
  match lookupA r f with
  | some v => v
  | none => none

/-- The connection data stored in `self.connections[uid]` by both ingest paths
(the same fixed field list in `extract_connection_data` and
`extract_real_time_connection_data`), plus the per-protocol enrichment lists
added by the enrichment passes. -/
structure Conn where
  ts : String
  uid : Option String
  origH : Option String
  origP : Option String
  respH : Option String
  respP : Option String
  proto : Option String
  service : Option String
  duration : Option String
  origBytes : Option String
  respBytes : Option String
  connState : Option String
  missedBytes : Option String
  histField : Option String
  origPkts : Option String
  origIpBytes : Option String
  respPkts : Option String
  respIpBytes : Option String
  enrich : List (String × List Record)
deriving DecidableEq

/-- The in-memory connection map `self.connections` (a Python dict, so keyed
by the record's `uid` value, which can itself be `None` in the batch path). -/
abbrev ConnMap : Type := List (Option String × Conn)

/-- The dict literal stored under a fresh UID (identical in both ingest paths). -/
def connOfRecord (ts : String) (uid : Option String) (r : Record) : Conn where
  ts := ts
  uid := uid
  origH := r.getV "id.orig_h"
  origP := r.getV "id.orig_p"
  respH := r.getV "id.resp_h"
  respP := r.getV "id.resp_p"
  proto := r.getV "proto"
  service := r.getV "service"
  duration := r.getV "duration"
  origBytes := r.getV "orig_bytes"
  respBytes := r.getV "resp_bytes"
  connState := r.getV "conn_state"
  missedBytes := r.getV "missed_bytes"
  histField := r.getV "history"
  origPkts := r.getV "orig_pkts"
  origIpBytes := r.getV "orig_ip_bytes"
  respPkts := r.getV "resp_pkts"
  respIpBytes := r.getV "resp_ip_bytes"
  enrich := []

/-! ## Ingest paths -/

/-- One iteration of the record loop of `extract_connection_data`
(`for record in conn_records`): skip records without a `uid` key; a UID already
present leaves the map untouched; otherwise validate the timestamp and append
the new connection. -/
def ingestConnRecord (s : ConnMap × Nat) (r : Record) : ConnMap × Nat :=
  match lookupA r "uid" with
  | none => s
  | some uidVal =>
    if (lookupA s.1 uidVal).isSome then s
    else
      match r.getV "ts" with
      | none => s
      | some t =>
        if validTsStr t then (s.1 ++ [(uidVal, connOfRecord t uidVal r)], s.2 + 1)
        else s

/-- One `conn.log` record of `extract_real_time_connection_data`
(lines 805–836): requires a truthy UID, validates the timestamp, then
unconditionally assigns `self.connections[uid] = {...}` (overwriting any
existing entry) and increments the new-connection counter. -/
def rtIngestRecord (s : ConnMap × Nat) (r : Record) : ConnMap × Nat :=
  match r.getV "uid" with
  | none => s
  | some u =>
    if strEmpty u then s
    else
      match r.getV "ts" with
      | none => s
      | some t =>
        if validTsStr t then (setA s.1 (some u) (connOfRecord t (some u) r), s.2 + 1)
        else s

/-- `if protocol not in conn: conn[protocol] = []` followed by
`conn[protocol].append(record)`. -/
def appendEnrich (e : List (String × List Record)) (proto : String) (r : Record) :
    List (String × List Record) :=
  match lookupA e proto with
  | some rs => setA e proto (rs ++ [r])
  | none => e ++ [(proto, [r])]

/-- Enrichment of one existing connection in `enrich_with_protocol_logs`:
append the record to the protocol's list and, if the connection's service is
falsy, set it to the protocol name. -/
def enrichConnBatch (c : Conn) (proto : String) (r : Record) : Conn :=
  let c1 : Conn := { c with enrich := appendEnrich c.enrich proto r }
  if truthy c1.service then c1 else { c1 with service := some proto }

/-- One record of the `enrich_with_protocol_logs` loop: records without a `uid`
key, or whose UID is not in the map, are ignored. -/
def enrichRecordBatch (m : ConnMap) (proto : String) (r : Record) : ConnMap :=
  match lookupA r "uid" with
  | none => m
  | some uidVal =>
    match lookupA m uidVal with
    | some c => setA m uidVal (enrichConnBatch c proto r)
    | none => m

/-- The fixed service list of the real-time enrichment
(`['http', 'dns', 'ssh', 'ssl', 'ftp', 'smtp']`). -/
def rtServiceTypes : List String := ["http", "dns", "ssh", "ssl", "ftp", "smtp"]

/-- Real-time enrichment of one existing connection (lines 914–924): append the
record; set the service only when it is falsy and the log type is recognized. -/
def enrichConnRT (c : Conn) (logType : String) (r : Record) : Conn :=
  let c1 : Conn := { c with enrich := appendEnrich c.enrich logType r }
  if !truthy c1.service && rtServiceTypes.contains logType then
    { c1 with service := some logType }
  else c1

/-- One record of the real-time enrichment loop: requires a truthy UID that is
already in the map. -/
def rtEnrichRecord (m : ConnMap) (logType : String) (r : Record) : ConnMap :=
  match r.getV "uid" with
  | none => m
  | some u =>
    if strEmpty u then m
    else
      match lookupA m (some u) with
      | some c => setA m (some u) (enrichConnRT c logType r)
      | none => m

/-! ## Zeek log line parsing

The real-time reader parses lines in place (lines 773–803 and 877–907 of the
source, the same logic twice): keep a current `#fields` header, skip blank and
non-header comment lines, and turn a tab-separated data line with more than one
token into a record, `-` becoming `None` and missing trailing fields `None`. -/

/-- `record[field] = values[i] if i < len(values) (with '-' ↦ None) else None`,
built in header order (a Python dict, so a duplicated field name keeps the last
value). -/
def buildRecord (header : List String) (values : List String) : Record :=
  header.enum.foldl
    (fun r p =>
      match values.get? p.1 with
      | some v => setA r p.2 (if v = "-" then none else some v)
      | none => setA r p.2 none)
    []

/-- Process one raw line against the current header; return the new header and
the parsed record, if the line yields one. -/
def parseZeekLine (header : Option (List String)) (rawLine : String) :
    Option (List String) × Option Record :=
  let line := strTrim rawLine
  if strEmpty line then (header, none)
  else if strStarts line "#" && !strStarts line "#fields" then (header, none)
  else if strStarts line "#fields" then
    (some (strSplitOnChar (Char.ofNat 9) (strTrim (strDropN line 8))), none)
  else
    match header with
    | none => (header, none)
    | some h =>
      let values := strSplitOnChar (Char.ofNat 9) line
      if 1 < values.length then (header, some (buildRecord h values)) else (header, none)

/-- Parse a whole file's lines into records, starting with no header. -/
def parseZeekLines (lines : List String) : List Record :=
  (lines.foldl
    (fun (st : Option (List String) × List Record) line =>
      match parseZeekLine st.1 line with
      | (h, some r) => (h, st.2 ++ [r])
      | (h, none) => (h, st.2))
    (none, [])).2

/-! ## Batch extraction (`extract_connection_data` + `enrich_with_protocol_logs`)

A directory is a listing of file names with contents; a content of `none`
models an unreadable file (missing/permission). -/

/-- filename → lines, or `none` when the file cannot be read. -/
abbrev FileSys : Type := List (String × Option (List String))

/-- Modelled from the spec: `self.read_log_file` is called by
`extract_connection_data` and `enrich_with_protocol_logs` but is not defined
anywhere under `src/`.  Per §4.1 of the specification it parses one
(possibly gzip-compressed) log file into records plus a count of consumed
lines, and an unreadable file "is reported and the caller proceeds with other
files; it never aborts the whole pass" — so an unreadable file yields no
records rather than an exception. -/
def read_log_file (content : Option (List String)) : List Record × Nat :=
  match content with
  | none => ([], 0)
  | some lines => (parseZeekLines lines, lines.length)

/-- `conn.*.log.gz` files of one date directory, in listing order. -/
def connLogNames (d : FileSys) : List String :=
  (d.map Prod.fst).filter (fun f => strStarts f "conn." && strEnds f ".log.gz")

/-- The protocol-log table of `enrich_with_protocol_logs`. -/
def protocolLogList : List (String × String) :=
  [("http", "http."), ("dns", "dns."), ("ssh", "ssh."), ("ssl", "ssl."),
   ("ftp", "ftp."), ("smtp", "smtp."), ("dhcp", "dhcp."), ("ntp", "ntp."),
   ("weird", "weird.")]

/-- `enrich_with_protocol_logs(date_path)` over the given connection map. -/
def enrich_with_protocol_logs (d : FileSys) (m : ConnMap) : ConnMap :=
  protocolLogList.foldl
    (fun m pp =>
      let files := (d.map Prod.fst).filter (fun f => strStarts f pp.2 && strEnds f ".log.gz")
      files.foldl
        (fun m f =>
          let recs := (read_log_file ((lookupA d f).getD none)).1
          recs.foldl (fun m r => enrichRecordBatch m pp.1 r) m)
        m)
    m

structure BatchState where
  connRecords : List Record
  conns : ConnMap
  newCount : Nat

/-- One date-directory iteration of `extract_connection_data` (batch mode):
read the `conn.*.log.gz` files into the accumulated `conn_records` list
(which the source deliberately never clears between directories), run the
record-ingest loop, then enrich from the protocol logs. -/
def extractDateDir (st : BatchState) (d : FileSys) : BatchState :=
  let connRecords :=
    (connLogNames d).foldl
      (fun acc f => acc ++ (read_log_file ((lookupA d f).getD none)).1)
      st.connRecords
  let s := connRecords.foldl ingestConnRecord (st.conns, st.newCount)
  { connRecords := connRecords
    conns := enrich_with_protocol_logs d s.1
    newCount := s.2 }

/-- `extract_connection_data` in batch mode over the date directories of the
logs root, returning the connection map and the new-connection count. -/
def extract_connection_data (dirs : List FileSys) : ConnMap × Nat :=
  let st := dirs.foldl extractDateDir ⟨[], [], 0⟩
  (st.conns, st.newCount)

/-! ## Feature computation (`compute_nslkdd_features` and helpers) -/

/-- The `get_timestamp` helper (defined three times verbatim in the source):
an empty timestamp or a `float()` failure gives `0`. -/
def getTimestamp (c : Conn) : ℚ :=
  if strEmpty c.ts then 0
  else match parseTsQ c.ts with
       | some q => q
       | none => 0

/-- The per-source-host / per-service index dictionaries (`host_connections`,
`srv_connections`). -/
abbrev GroupMap : Type := List (String × List Conn)

/-- `dict.get(key, [])` where the key may be a Python `None` or `''`
(never inserted, so they find nothing). -/
def bucketOf (g : GroupMap) (k : Option String) : List Conn :=
  match k with
  | none => []
  | some s => (lookupA g s).getD []

/-- Lines 301–303: `if src_ip: host_connections[src_ip].append(conn)`. -/
def updateHost (host : GroupMap) (c : Conn) : GroupMap :=
  match c.origH with
  | none => host
  | some s =>
    if strEmpty s then host
    else
      match lookupA host s with
      | some l => setA host s (l ++ [c])
      | none => host ++ [(s, [c])]

/-- `compute_same_host_count`: count, in the current source host's bucket, the
connections to the same destination whose (`get_timestamp`) timestamp lies in
`[current_ts - 2, current_ts]`. -/
def computeSameHostCount (c : Conn) (host : GroupMap) : Nat :=
  if strEmpty c.ts || !truthy c.respH then 0
  else
    let curTs := getTimestamp c
    ((bucketOf host c.origH).filter
      (fun d =>
        decide (d.respH = c.respH) &&
        decide (ratSub curTs 2 ≤ getTimestamp d) &&
        decide (getTimestamp d ≤ curTs))).length

/-- The counting generator of `compute_same_service_count`
(`sum(1 for c in ... if float(c['ts']) >= current_ts - 2 and float(c['ts']) <= current_ts)`);
`float()` raises on an unparseable timestamp, aborting the pass (`none`). -/
def srvWindowCount (curTs : ℚ) : List Conn → Option Nat
  | [] => some 0
  | d :: ds =>
    match parseTsQ d.ts with
    | none => none
    | some q =>
      (srvWindowCount curTs ds).map
        (fun n => if ratSub curTs 2 ≤ q ∧ q ≤ curTs then n + 1 else n)

/-- `compute_same_service_count`: a falsy timestamp or service gives `0`
without touching the index; otherwise `float(conn['ts'])` is taken (raising on
failure), the connection is appended to its service bucket, and the bucket is
counted over the 2-second window. -/
def computeSameServiceCount (c : Conn) (srv : GroupMap) : Option (Nat × GroupMap) :=
  if strEmpty c.ts || !truthy c.service then some (0, srv)
  else
    match parseTsQ c.ts, c.service with
    | some curTs, some s =>
      let srv1 :=
        match lookupA srv s with
        | some l => setA srv s (l ++ [c])
        | none => srv ++ [(s, [c])]
      ((srvWindowCount curTs ((lookupA srv1 s).getD [])).map (fun n => (n, srv1)))
    | none, _ => none
    | _, none => none

/-- The recent same-host-pair window of `compute_error_rates`. -/
def sameHostConns (c : Conn) (host : GroupMap) : List Conn :=
  let curTs := getTimestamp c
  (bucketOf host c.origH).filter
    (fun d =>
      decide (d.respH = c.respH) &&
      decide (ratSub curTs 2 ≤ getTimestamp d) &&
      decide (getTimestamp d ≤ curTs))

/-- The recent same-service window of `compute_error_rates`. -/
def sameSrvConns (c : Conn) (srv : GroupMap) : List Conn :=
  let curTs := getTimestamp c
  (bucketOf srv c.service).filter
    (fun d =>
      decide (ratSub curTs 2 ≤ getTimestamp d) &&
      decide (getTimestamp d ≤ curTs))

structure ErrorRates where
  serror : ℚ
  srvSerror : ℚ
  rerror : ℚ
deriving DecidableEq

/-- `compute_error_rates`: all rates default to `0.0`; a falsy timestamp or
source host returns the defaults; each rate is the fraction of its window in
the given terminal state, left at `0.0` when the window is empty. -/
def computeErrorRates (c : Conn) (host srv : GroupMap) : ErrorRates :=
  if strEmpty c.ts || !truthy c.origH then ⟨0, 0, 0⟩
  else
    let sh := sameHostConns c host
    let ss := sameSrvConns c srv
    let serror :=
      if sh.isEmpty then 0
      else ratDiv ((sh.filter (fun d => decide (d.connState = some "S0"))).length : ℚ) (sh.length : ℚ)
    let rerror :=
      if sh.isEmpty then 0
      else ratDiv ((sh.filter (fun d => decide (d.connState = some "REJ"))).length : ℚ) (sh.length : ℚ)
    let srvSerror :=
      if ss.isEmpty then 0
      else ratDiv ((ss.filter (fun d => decide (d.connState = some "S0"))).length : ℚ) (ss.length : ℚ)
    ⟨serror, srvSerror, rerror⟩

/-- The static service translation table (`self.service_mapping`). -/
def serviceMapping : List (String × String) :=
  [("dns", "domain"), ("http", "http"), ("https", "http_443"), ("ssh", "ssh"),
   ("ftp", "ftp"), ("ftp-data", "ftp_data"), ("smtp", "smtp"), ("pop3", "pop_3"),
   ("imap", "imap4"), ("telnet", "telnet"), ("nntp", "nntp"), ("irc", "IRC"),
   ("whois", "whois"), ("ssl", "private"), ("dhcp", "other"), ("ntp", "ntp_u"),
   ("ldap", "ldap"), ("finger", "finger")]

/-- The identity flag table's key set (`self.flag_mapping` maps each key to
itself; `get(conn_state, 'OTH')`). -/
def flagKeys : List String :=
  ["S0", "SF", "REJ", "S1", "S2", "S3", "RSTO", "RSTR", "RSTOS0", "SH", "OTH"]

/-- Feature 2: lower-cased protocol, anything outside tcp/udp/icmp becomes tcp. -/
def protocolType (p : Option String) : String :=
  let pr := match p with
            | none => "tcp"
            | some s => if strEmpty s then "tcp" else strLower s
  if pr = "tcp" ∨ pr = "udp" ∨ pr = "icmp" then pr else "tcp"

/-- Feature 3: service through the translation table, defaulting to `other`. -/
def serviceFeature (sv : Option String) : String :=
  let s := match sv with
           | none => "other"
           | some s => if strEmpty s then "other" else s
  (lookupA serviceMapping s).getD "other"

/-- Feature 4: connection state through the flag table, defaulting to `OTH`. -/
def flagFeature (cs : Option String) : String :=
  let s := match cs with
           | none => "OTH"
           | some s => if strEmpty s then "OTH" else s
  if flagKeys.contains s then s else "OTH"

/-- Model of Python `int(s)` on a string: optional sign then digits
(surrounding whitespace and underscores are not modelled); `none` models the
`ValueError` that aborts the pass. -/
def pyInt (s : String) : Option Int :=
  let body := if strStarts s "-" ∨ strStarts s "+" then s.data.drop 1 else s.data
  if allDigits body then
    some (if strStarts s "-" then -(digitsToNat body : Int) else (digitsToNat body : Int))
  else none

/-- Features 5/6: `int(conn['orig_bytes']) if conn['orig_bytes'] else 0`. -/
def bytesFeature (b : Option String) : Option Int :=
  match b with
  | none => some 0
  | some s => if strEmpty s then some 0 else pyInt s

/-- Feature 1: the raw duration string, or the integer `0` when falsy. -/
def durationFeature (d : Option String) : Option String :=
  match d with
  | none => none
  | some s => if strEmpty s then none else some s

/-- `conn[proto]` for an enrichment protocol, `[]` when never enriched. -/
def enrichOf (c : Conn) (proto : String) : List Record :=
  (lookupA c.enrich proto).getD []

/-- `compute_wrong_fragment`: weird records whose truthy name mentions `frag`. -/
def computeWrongFragment (c : Conn) : Nat :=
  let w := enrichOf c "weird"
  if w.isEmpty then 0
  else
    (w.filter
      (fun r =>
        match r.getV "name" with
        | some nm => !strEmpty nm && strHasSub (strLower nm) "frag"
        | none => false)).length

def suspiciousPatterns : List String :=
  ["cmd=", "exec=", "/bin/", "/etc/", "passwd", "shadow", ".php?", "eval(", "system("]

/-- `compute_hot_indicators`: per http record, the number of suspicious
patterns occurring in a truthy request URI. -/
def computeHotIndicators (c : Conn) : Nat :=
  (enrichOf c "http").foldl
    (fun acc r =>
      match r.getV "uri" with
      | some uri =>
        if strEmpty uri then acc
        else acc + (suspiciousPatterns.filter (fun p => strHasSub uri p)).length
      | none => acc)
    0

def authServices : List String := ["ssh", "ftp", "smtp", "pop3", "imap", "telnet"]

/-- `compute_logged_in`: an authenticated service with state `SF` always
returns `'1'` (the SSH/FTP sub-checks in the source can only return `'1'`
early before the unconditional `return '1'` of that branch); otherwise an http
record with a truthy username or an `Authorization` request header gives `'1'`,
else `'0'`. -/
def computeLoggedIn (c : Conn) : String :=
  let svcAuth := match c.service with
                 | some s => authServices.contains s
                 | none => false
  if svcAuth && c.connState = some "SF" then "1"
  else if (enrichOf c "http").any
      (fun r =>
        (match r.getV "username" with
         | some u => !strEmpty u
         | none => false) ||
        strHasSub ((r.getV "request_headers").getD "") "Authorization") then "1"
  else "0"

def compromiseIndicators : List String := ["exploit", "attack", "backdoor", "trojan"]

/-- `compute_num_compromised`: count notice records whose note text contains a
compromise indicator.  `notice.get('note', '')` returns the stored `None` when
the field was `-`, and `.lower()` then raises — modelled by `none`. -/
def computeNumCompromised (c : Conn) : Option Nat :=
  (enrichOf c "notice").foldl
    (fun acc r =>
      match acc with
      | none => none
      | some n =>
        match lookupA r "note" with
        | some none => none
        | some (some nt) =>
          some (if compromiseIndicators.any (fun x => strHasSub (strLower nt) x) then n + 1 else n)
        | none => some n)
    (some 0)

/-- One NSL-KDD record (the 15 attributes of `self.nslkdd_attributes`).
`duration` keeps the source's value type: the raw string when truthy, else the
integer `0` (rendered `none` here). -/
structure FeatureRec where
  duration : Option String
  protocol_type : String
  service : String
  flag : String
  src_bytes : Int
  dst_bytes : Int
  wrong_fragment : Nat
  hot : Nat
  logged_in : String
  num_compromised : Nat
  count : Nat
  srv_count : Nat
  serror_rate : ℚ
  srv_serror_rate : ℚ
  rerror_rate : ℚ
deriving DecidableEq

/-- Assemble one record of the `compute_nslkdd_features` loop body
(`none` models the `ValueError`s of `int()` / the notice `.lower()` crash). -/
def mkFeatureRec (c : Conn) (cnt srvCnt : Nat) (er : ErrorRates) : Option FeatureRec :=
  match bytesFeature c.origBytes, bytesFeature c.respBytes, computeNumCompromised c with
  | some sb, some db, some nc =>
    some
    { duration := durationFeature c.duration
      protocol_type := protocolType c.proto
      service := serviceFeature c.service
      flag := flagFeature c.connState
      src_bytes := sb
      dst_bytes := db
      wrong_fragment := computeWrongFragment c
      hot := computeHotIndicators c
      logged_in := computeLoggedIn c
      num_compromised := nc
      count := cnt
      srv_count := srvCnt
      serror_rate := er.serror
      srv_serror_rate := er.srvSerror
      rerror_rate := er.rerror }
  | _, _, _ => none

/-- The main loop of `compute_nslkdd_features` over the timestamp-sorted
connection list, threading the two window indices (a `none` anywhere aborts
the pass, like the uncaught Python exception). -/
def featureGo (host srv : GroupMap) : List Conn → Option (List FeatureRec)
  | [] => some []
  | c :: rest =>
    match computeSameServiceCount c srv with
    | none => none
    | some (srvCnt, srv1) =>
      match mkFeatureRec c (computeSameHostCount c (updateHost host c)) srvCnt
          (computeErrorRates c (updateHost host c) srv1) with
      | none => none
      | some fr =>
        match featureGo (updateHost host c) srv1 rest with
        | none => none
        | some frs => some (fr :: frs)

/-- Feature computation over an already-sorted connection list. -/
def featurePass (l : List Conn) : Option (List FeatureRec) :=
  featureGo [] [] l

/-- Stable insertion keeping equal-timestamp elements in their original order
(matching the stability of Python's `sorted` with `key=get_timestamp`). -/
def insertTs (c : Conn) : List Conn → List Conn
  | [] => [c]
  | d :: ds => if getTimestamp d ≤ getTimestamp c then d :: insertTs c ds else c :: d :: ds

def sortByTs : List Conn → List Conn
  | [] => []
  | c :: cs => insertTs c (sortByTs cs)

/-- `compute_nslkdd_features`: sort the map's values by timestamp, then run the
feature loop. -/
def compute_nslkdd_features (m : ConnMap) : Option (List FeatureRec) :=
  featurePass (sortByTs (m.map Prod.snd))

/-! ## CSV output sinks -/

/-- One line of the output CSV: the header of the fixed 15-field schema, or one
record rendered by `csv.DictWriter` in the `self.nslkdd_attributes` field
order (the order is the field order of `FeatureRec`). -/
inductive CsvLine where
  | headerLine : CsvLine
  | row (r : FeatureRec) : CsvLine
deriving DecidableEq

/-- `write_nslkdd_format`: the file is opened with mode `'w'`, so whatever the
destination held before (`old`, `none` when absent) is discarded; a header and
one row per record are written. -/
def write_nslkdd_format (_old : Option (List CsvLine)) (recs : List FeatureRec) :
    List CsvLine :=
  CsvLine.headerLine :: recs.map CsvLine.row

/-- `append_to_nslkdd_file`: mode `'a'`; the header is written only when the
file did not already exist. -/
def append_to_nslkdd_file (old : Option (List CsvLine)) (recs : List FeatureRec) :
    List CsvLine :=
  match old with
  | none => CsvLine.headerLine :: recs.map CsvLine.row
  | some ls => ls ++ recs.map CsvLine.row

/-! ## Real-time extraction (`extract_real_time_connection_data`)

The spool directory is a `FileSys`; `none` content models a file whose `open`
raises (the per-file `try` swallows the exception and moves on).  The position
ledger is keyed by the joined absolute path, as in the source. -/

abbrev Ledger : Type := List (String × Nat)

def rtDirPath : String := "/opt/zeek/spool/zeek"

def rtPath (f : String) : String := rtDirPath ++ "/" ++ f

/-- The real-time file filter (`.log` files that are not stderr/stdout). -/
def isRtLogName (f : String) : Bool :=
  strEnds f ".log" && !strStarts f "stderr" && !strStarts f "stdout"

/-- One line of the `conn.log` loop: parse against the running header, feed any
record to the real-time ingest. -/
def rtConnStep (st : Option (List String) × ConnMap × Nat) (line : String) :
    Option (List String) × ConnMap × Nat :=
  match parseZeekLine st.1 line with
  | (h, some r) => (h, rtIngestRecord st.2 r)
  | (h, none) => (h, st.2)

/-- Reading `conn.log` from a start line: skip the consumed lines, parse the
rest (header state starts fresh), and report the new current line
(`start_line + lines_read`). -/
def processRTConnLog (lines : List String) (startLine : Nat) (m : ConnMap) (n : Nat) :
    (ConnMap × Nat) × Nat :=
  let newLines := lines.drop startLine
  let st := newLines.foldl rtConnStep (none, (m, n))
  (st.2, startLine + newLines.length)

/-- One line of a service-log loop. -/
def rtEnrichStep (logType : String) (st : Option (List String) × ConnMap) (line : String) :
    Option (List String) × ConnMap :=
  match parseZeekLine st.1 line with
  | (h, some r) => (h, rtEnrichRecord st.2 logType r)
  | (h, none) => (h, st.2)

/-- Reading one service log from a start line. -/
def processRTServiceLog (logType : String) (lines : List String) (startLine : Nat)
    (m : ConnMap) : ConnMap × Nat :=
  let newLines := lines.drop startLine
  let st := newLines.foldl (rtEnrichStep logType) (none, m)
  (st.2, startLine + newLines.length)

structure RTResult where
  newConns : Nat
  ledger : Ledger
  conns : ConnMap
deriving DecidableEq

/-- The `conn.log` stage of `extract_real_time_connection_data` (lines
754–844): when `conn.log` exists and opens, skip the consumed lines, ingest
the rest into the freshly reset map, and advance its ledger entry; a missing
or unreadable `conn.log` leaves the ledger untouched (the exception is caught
and only printed).  Returns (connection map, new-connection count, ledger). -/
def rtConnStage (files : FileSys) (pos : Ledger) : ConnMap × Nat × Ledger :=
  match lookupA files "conn.log" with
  | some (some lines) =>
    let start := (lookupA pos (rtPath "conn.log")).getD 0
    let r := processRTConnLog lines start [] 0
    (r.1.1, r.1.2, setA pos (rtPath "conn.log") r.2)
  | some none => ([], 0, pos)
  | none => ([], 0, pos)

/-- One iteration of the service-log loop (lines 849–934): `conn.log` is
skipped, an unreadable file is skipped (caught exception), otherwise the new
lines enrich the map and the file's ledger entry advances. -/
def rtServiceStep (files : FileSys) (acc : ConnMap × Ledger) (f : String) :
    ConnMap × Ledger :=
  if f = "conn.log" then acc
  else
    match lookupA files f with
    | some (some lines) =>
      let start := (lookupA acc.2 (rtPath f)).getD 0
      let r := processRTServiceLog ((strSplitOnChar '.' f).headD "") lines start acc.1
      (r.1, setA acc.2 (rtPath f) r.2)
    | some none => acc
    | none => acc

/-- `extract_real_time_connection_data(file_positions)`: the connection map is
reset, a missing spool directory (`none`) or an empty log listing returns
early; `conn.log` is processed first, then every other listed log enriches
the map.  (The source's `service_logs_uids` bookkeeping only feeds prints and
is not modelled.) -/
def extract_real_time_connection_data (dir : Option FileSys) (pos : Ledger) : RTResult :=
  match dir with
  | none => ⟨0, pos, []⟩
  | some files =>
    let logNames := (files.map Prod.fst).filter isRtLogName
    if logNames.isEmpty then ⟨0, pos, []⟩
    else
      let first := rtConnStage files pos
      let final := logNames.foldl (rtServiceStep files) (first.1, first.2.2)
      ⟨first.2.1, final.2, final.1⟩

/-! ## ElasticSearch enrichment -/

/-- `get_conn_state_description`'s table. -/
def connStateDescriptions : List (String × String) :=
  [("S0", "Tentative de connexion sans réponse"),
   ("SF", "Établissement et terminaison normale"),
   ("REJ", "Tentative de connexion rejetée"),
   ("S1", "Connexion établie, non terminée"),
   ("S2", "Connexion établie, tentative de fermeture par l'initiateur"),
   ("S3", "Connexion établie, tentative de fermeture par le destinataire"),
   ("RSTO", "Connexion établie, avortée par l'initiateur"),
   ("RSTR", "Connexion établie, avortée par le destinataire"),
   ("RSTOS0", "L'initiateur a envoyé un SYN suivi d'un RST"),
   ("SH", "L'initiateur a envoyé un SYN suivi d'un FIN"),
   ("OTH", "Pas de SYN, non fermée")]

def get_conn_state_description (cs : Option String) : String :=
  match cs with
  | some s => (lookupA connStateDescriptions s).getD "État inconnu"
  | none => "État inconnu"

/-- One enriched document for the bulk sink.  `atTs` is the parsed epoch
timestamp rendered to ISO form by the source (`none` models "the current wall
clock time instead"); the DNS reverse lookups (`src_hostname`/`dst_hostname`)
are outward network calls and are not modelled. -/
structure EsDoc where
  base : FeatureRec
  atTs : Option ℚ
  srcIp : Option String
  srcPort : Option String
  dstIp : Option String
  dstPort : Option String
  bytesIn : Option String
  bytesOut : Option String
  packetsIn : Option String
  packetsOut : Option String
  serviceName : Option String
  serviceMapped : Option String
  connUid : Option String
  connStateDesc : String
  securityNotices : Option (List String)
deriving DecidableEq

/-- `enrich_data_for_elasticsearch` body for index `i`:
`conn_id = list(self.connections.keys())[i] if i < len(self.connections) else None`,
then `conn = self.connections.get(conn_id, {})`. -/
def esEnrichOne (m : ConnMap) (i : Nat) (r : FeatureRec) : EsDoc :=
  let ck : Option String := if i < m.length then ((m.map Prod.fst).get? i).getD none else none
  let c? : Option Conn := lookupA m ck
  { base := r
    atTs :=
      match c? with
      | some c => if strEmpty c.ts then none else parseTsQ c.ts
      | none => none
    srcIp := c?.bind (·.origH)
    srcPort := c?.bind (·.origP)
    dstIp := c?.bind (·.respH)
    dstPort := c?.bind (·.respP)
    bytesIn := c?.bind (·.origBytes)
    bytesOut := c?.bind (·.respBytes)
    packetsIn := c?.bind (·.origPkts)
    packetsOut := c?.bind (·.respPkts)
    serviceName :=
      match c?.bind (·.service) with
      | some s => if strEmpty s then none else some s
      | none => none
    serviceMapped :=
      match c?.bind (·.service) with
      | some s => if strEmpty s then none else some ((lookupA serviceMapping s).getD "other")
      | none => none
    connUid := ck
    connStateDesc := get_conn_state_description (c?.bind (·.connState))
    securityNotices :=
      match c? with
      | some c =>
        match lookupA c.enrich "notice" with
        | some rs =>
          let ns := rs.filterMap
            (fun r =>
              match r.getV "note" with
              | some s => if strEmpty s then none else some s
              | none => none)
          if ns.isEmpty then none else some ns
        | none => none
      | none => none }

def enrich_data_for_elasticsearch (m : ConnMap) (recs : List FeatureRec) : List EsDoc :=
  recs.enum.map (fun p => esEnrichOne m p.1 p.2)

/-! ## Ledger verification (`verify_file_positions`) -/

/-- What the verification pass observes of a monitored file: its byte size and
its line count. -/
structure FileStat where
  size : Nat
  lineCount : Nat
deriving DecidableEq

/-- `estimated_lines_read = position / max(avg_line_size, 1)` with
`avg_line_size = file_size / max(line_count, 1)`, and `0` when the average is
not positive. -/
def estLinesRead (fs : FileStat) (position : Nat) : ℚ :=
  let avg : ℚ := ratDiv (fs.size : ℚ) ((max fs.lineCount 1 : ℕ) : ℚ)
  if 0 < avg then ratDiv (position : ℚ) (ratMax avg 1) else 0

/-- Whether one ledger entry lands in `files_to_reset`: a missing file, an
offset exceeding the size by more than the 100-byte tolerance, or (for a file
with more than 10 lines and a positive offset) an estimated lines-read
exceeding 1.5 × the line count. -/
def shouldResetPos (st : Option FileStat) (position : Nat) : Bool :=
  match st with
  | none => true
  | some fs =>
    decide (fs.size + 100 < position) ||
    (decide (0 < position) && decide (10 < fs.lineCount) &&
     decide (ratMul ((fs.lineCount : ℕ) : ℚ) (mkRat 3 2) < estLinesRead fs position))

/-- `verify_file_positions`: collect the entries to reset, then zero exactly
those entries in a copy of the ledger. -/
def resetKeys (fsys : List (String × FileStat)) (positions : Ledger) : List String :=
  (positions.filter (fun p => shouldResetPos (lookupA fsys p.1) p.2)).map Prod.fst

def verify_file_positions (fsys : List (String × FileStat)) (positions : Ledger) : Ledger :=
  positions.map (fun p => if (resetKeys fsys positions).contains p.1 then (p.1, 0) else p)

/-! ## Specification-side definitions

These follow the words of the specification's claims (not the source), for
comparison with the source-derived definitions above. -/

/-- Follows the claim's words: the connections of `l` "sharing the same
(source host, destination host) pair" with `c` "whose timestamp lies in the
inclusive window `[current_ts − 2, current_ts]`". -/
def specHostWindow (l : List Conn) (c : Conn) : List Conn :=
  l.filter
    (fun d =>
      decide (d.origH = c.origH) && decide (d.respH = c.respH) &&
      decide (ratSub (getTimestamp c) 2 ≤ getTimestamp d) &&
      decide (getTimestamp d ≤ getTimestamp c))

def specHostWindowCount (l : List Conn) (c : Conn) : Nat :=
  (specHostWindow l c).length

/-- The expected `count` values when the connections are scanned in order
against an incrementally built index: the window of each connection is taken
over the connections scanned so far, itself included. -/
def specCountsAux (scanned : List Conn) : List Conn → List Nat
  | [] => []
  | c :: rest => specHostWindowCount (scanned ++ [c]) c :: specCountsAux (scanned ++ [c]) rest

/-- Follows the claim's words: the timestamp string "is parseable as a
non-negative decimal number". -/
def specNonNegDecimal (s : String) : Bool :=
  match parseTsQ s with
  | some q => decide (0 ≤ q)
  | none => false

/-- Follows the claim's words: a timestamp that is "empty, contains a null
byte, or is not parseable as a non-negative decimal number" must be dropped. -/
def claimTsDrops (ts : String) : Bool :=
  strEmpty ts || strHasChar ts (Char.ofNat 0) || !specNonNegDecimal ts

/-! ## Concrete example inputs -/

/-- A connection with every optional field absent. -/
def baseConn : Conn where
  ts := ""
  uid := none
  origH := none
  origP := none
  respH := none
  respP := none
  proto := none
  service := none
  duration := none
  origBytes := none
  respBytes := none
  connState := none
  missedBytes := none
  histField := none
  origPkts := none
  origIpBytes := none
  respPkts := none
  respIpBytes := none
  enrich := []

/-- Three connections with the same host pair at timestamps 100.0, 100.5,
103.0 (the spec's window example), already in ascending timestamp order. -/
def exWin : List Conn :=
  [{ baseConn with ts := "100.0", uid := some "u1", origH := some "10.0.0.1",
                   respH := some "10.0.0.2", proto := some "tcp", service := some "http" },
   { baseConn with ts := "100.5", uid := some "u2", origH := some "10.0.0.1",
                   respH := some "10.0.0.2", proto := some "tcp", service := some "http" },
   { baseConn with ts := "103.0", uid := some "u3", origH := some "10.0.0.1",
                   respH := some "10.0.0.2", proto := some "tcp", service := some "http" }]

/-- A connection whose `service` field was `-` in the log. -/
def exNoSvc : Conn :=
  { baseConn with ts := "100.0", uid := some "u", origH := some "10.0.0.1",
                  respH := some "10.0.0.2", proto := some "tcp" }

/-- A lone, normally closed connection. -/
def exSF : Conn :=
  { baseConn with ts := "100.0", uid := some "u", origH := some "10.0.0.1",
                  respH := some "10.0.0.2", proto := some "tcp",
                  service := some "http", connState := some "SF" }

/-- A parsed record whose timestamp passes the source's validation but is not
a decimal number. -/
def exRecBadTs : Record := [("uid", some "u"), ("ts", some "1.2.3")]

/-- Two primary records with the same UID and different counters. -/
def exRecFirst : Record :=
  [("uid", some "u"), ("ts", some "100.0"), ("orig_bytes", some "5")]

def exRecSecond : Record :=
  [("uid", some "u"), ("ts", some "101.0"), ("orig_bytes", some "7")]

/-- An arbitrary concrete feature record (used as prior CSV file content). -/
def exFeature : FeatureRec where
  duration := none
  protocol_type := "tcp"
  service := "other"
  flag := "OTH"
  src_bytes := 0
  dst_bytes := 0
  wrong_fragment := 0
  hot := 0
  logged_in := "0"
  num_compromised := 0
  count := 0
  srv_count := 0
  serror_rate := 0
  srv_serror_rate := 0
  rerror_rate := 0

/-- A connection map whose insertion order (`u1` then `u2`) disagrees with the
timestamp order (`u2` at 100.0 before `u1` at 200.0). -/
def exEsM : ConnMap :=
  [(some "u1",
    { baseConn with ts := "200.0", uid := some "u1", origH := some "1.1.1.1",
                    respH := some "2.2.2.2", proto := some "tcp", origBytes := some "5" }),
   (some "u2",
    { baseConn with ts := "100.0", uid := some "u2", origH := some "3.3.3.3",
                    respH := some "4.4.4.4", proto := some "tcp", origBytes := some "7" })]

/-- A small spool directory with a `conn.log` and one service log. -/
def exRtDir : FileSys :=
  [("conn.log", some ["#fields\tts\tuid\tid.orig_h\tid.resp_h\tproto",
                      "100.0\tC1\t10.0.0.1\t10.0.0.2\ttcp"]),
   ("dns.log", some ["#fields\tts\tuid\tquery", "100.0\tC1\texample.com"])]

/-- The feature records that `featurePass exWin` produces (counts 1, 2, 1). -/
def exWinRecs : List FeatureRec :=
  [{ duration := none, protocol_type := "tcp", service := "http", flag := "OTH",
     src_bytes := 0, dst_bytes := 0, wrong_fragment := 0, hot := 0, logged_in := "0",
     num_compromised := 0, count := 1, srv_count := 1,
     serror_rate := 0, srv_serror_rate := 0, rerror_rate := 0 },
   { duration := none, protocol_type := "tcp", service := "http", flag := "OTH",
     src_bytes := 0, dst_bytes := 0, wrong_fragment := 0, hot := 0, logged_in := "0",
     num_compromised := 0, count := 2, srv_count := 2,
     serror_rate := 0, srv_serror_rate := 0, rerror_rate := 0 },
   { duration := none, protocol_type := "tcp", service := "http", flag := "OTH",
     src_bytes := 0, dst_bytes := 0, wrong_fragment := 0, hot := 0, logged_in := "0",
     num_compromised := 0, count := 1, srv_count := 1,
     serror_rate := 0, srv_serror_rate := 0, rerror_rate := 0 }]

/-- The feature record that `featurePass [exSF]` produces. -/
def exSFRec : FeatureRec where
  duration := none
  protocol_type := "tcp"
  service := "http"
  flag := "SF"
  src_bytes := 0
  dst_bytes := 0
  wrong_fragment := 0
  hot := 0
  logged_in := "0"
  num_compromised := 0
  count := 1
  srv_count := 1
  serror_rate := 0
  srv_serror_rate := 0
  rerror_rate := 0

/-- The connection map after batch-ingesting `exRecFirst` into an empty map. -/
def exIngested : ConnMap := [(some "u", connOfRecord "100.0" (some "u") exRecFirst)]

/-- Records with a well-formed and with a non-numeric timestamp. -/
def exRecGoodTs : Record := [("uid", some "u"), ("ts", some "100.0")]

def exRecNonNumTs : Record := [("uid", some "u"), ("ts", some "abc")]

/-- A date directory with one conn log and one http log. -/
def exBatchDirRest : FileSys :=
  [("conn.00:00:00-01:00:00.log.gz",
    some ["#fields\tts\tuid\tid.orig_h\tid.resp_h\tproto",
          "100.0\tC1\t10.0.0.1\t10.0.0.2\ttcp"])]

/-! # Lemmas and theorems -/

/-! ## Association-list lemmas -/

theorem lookupA_setA_self {α β : Type _} [DecidableEq α] (l : List (α × β)) (k : α) (v : β) :
    lookupA (setA l k v) k = some v := by
  induction l with
  | nil => simp [setA, lookupA]
  | cons p rest ih =>
    by_cases h : p.1 = k
    · simp [setA, h, lookupA]
    · simp [setA, h, lookupA, ih]

theorem lookupA_setA_ne {α β : Type _} [DecidableEq α] (l : List (α × β)) (k k' : α) (v : β)
    (h : k' ≠ k) : lookupA (setA l k' v) k = lookupA l k := by
  induction l with
  | nil => simp [setA, lookupA, h]
  | cons p rest ih =>
    by_cases hp : p.1 = k'
    · simp [setA, hp, lookupA, h, hp ▸ h]
    · simp [setA, hp, lookupA, ih]

theorem setA_self {α β : Type _} [DecidableEq α] (l : List (α × β)) (k : α) (v : β)
    (h : lookupA l k = some v) : setA l k v = l := by
  induction l with
  | nil => simp [lookupA] at h
  | cons p rest ih =>
    obtain ⟨pk, pv⟩ := p
    by_cases hp : pk = k
    · simp [lookupA, hp] at h
      simp [setA, hp, h]
    · simp [lookupA, hp] at h
      simp [setA, hp, ih h]

theorem lookupA_append_of_none {α β : Type _} [DecidableEq α] (l1 l2 : List (α × β)) (k : α)
    (h : lookupA l1 k = none) : lookupA (l1 ++ l2) k = lookupA l2 k := by
  induction l1 with
  | nil => simp
  | cons p rest ih =>
    by_cases hp : p.1 = k
    · simp [lookupA, hp] at h
    · simp [lookupA, hp] at h ⊢
      exact ih h

theorem lookupA_append_of_some {α β : Type _} [DecidableEq α] (l1 l2 : List (α × β)) (k : α)
    (v : β) (h : lookupA l1 k = some v) : lookupA (l1 ++ l2) k = some v := by
  induction l1 with
  | nil => simp [lookupA] at h
  | cons p rest ih =>
    by_cases hp : p.1 = k
    · simp [lookupA, hp] at h ⊢
      exact h
    · simp [lookupA, hp] at h ⊢
      exact ih h

/-! ## Rational bridging lemmas -/

theorem den_cast_ne_zero (a : ℚ) : ((a.den : ℚ)) ≠ 0 := by
  exact_mod_cast a.den_nz

theorem ratSub_eq (a b : ℚ) : ratSub a b = a - b := by
  have ha := den_cast_ne_zero a
  have hb := den_cast_ne_zero b
  rw [ratSub, Rat.mkRat_eq_div]
  push_cast
  conv_rhs => rw [← Rat.num_div_den a, ← Rat.num_div_den b]
  field_simp
  ring

theorem ratAdd_eq (a b : ℚ) : ratAdd a b = a + b := by
  have ha := den_cast_ne_zero a
  have hb := den_cast_ne_zero b
  rw [ratAdd, Rat.mkRat_eq_div]
  push_cast
  conv_rhs => rw [← Rat.num_div_den a, ← Rat.num_div_den b]
  field_simp

theorem ratMul_eq (a b : ℚ) : ratMul a b = a * b := by
  have ha := den_cast_ne_zero a
  have hb := den_cast_ne_zero b
  rw [ratMul, Rat.mkRat_eq_div]
  push_cast
  conv_rhs => rw [← Rat.num_div_den a, ← Rat.num_div_den b]
  field_simp

theorem ratDiv_eq (a b : ℚ) : ratDiv a b = a / b := by
  rw [ratDiv, Rat.divInt_eq_div]
  by_cases hb : b = 0
  · subst hb
    simp
  · have ha := den_cast_ne_zero a
    have hbd := den_cast_ne_zero b
    have hbn : ((b.num : ℚ)) ≠ 0 := by
      exact_mod_cast Rat.num_ne_zero.mpr hb
    push_cast
    conv_rhs => rw [← Rat.num_div_den a, ← Rat.num_div_den b]
    field_simp

theorem ratMax_eq (a b : ℚ) : ratMax a b = max a b := by
  rw [ratMax, max_def]

theorem ratPow10_eq (n : ℕ) : ratPow10 n = (10 : ℚ) ^ n := by
  rw [ratPow10]
  push_cast
  rfl

/-! ## Enrichment helper lemma -/

theorem lookupA_appendEnrich (e : List (String × List Record)) (p : String) (r : Record) :
    lookupA (appendEnrich e p r) p = some ((lookupA e p).getD [] ++ [r]) := by
  unfold appendEnrich
  cases h : lookupA e p with
  | some rs => simp [lookupA_setA_self]
  | none =>
    rw [lookupA_append_of_none _ _ _ h]
    simp [lookupA]

/-! ## C1 — re-ingest and enrichment behaviour -/

/-- C1 counterexample: the claim says re-ingesting an existing UID leaves the
primary fields unchanged in the real-time path too, but
`extract_real_time_connection_data` assigns unconditionally: ingesting a second
`conn.log` record with UID `u` replaces the stored `orig_bytes` value `5` by
`7`. -/
theorem c1_counterexample :
    (lookupA (rtIngestRecord (rtIngestRecord ([], 0) exRecFirst) exRecSecond).1 (some "u")).map
        (fun c => c.origBytes) = some (some "7") ∧
    (lookupA (rtIngestRecord ([], 0) exRecFirst).1 (some "u")).map
        (fun c => c.origBytes) = some (some "5") :=
  ⟨by decide, by decide⟩

/-- C1 (amended): in the batch path a UID already present in the map is a
strict no-op (first-seen wins), and enrichment always appends the record to the
protocol's list without deduplication, in both paths; but the real-time
primary-record path overwrites the stored connection with the fields of the
latest record (last-seen wins). -/
theorem c1_amended_thm :
    (∀ (m : ConnMap) (n : Nat) (r : Record) (uv : Option String),
      lookupA r "uid" = some uv → (lookupA m uv).isSome →
      ingestConnRecord (m, n) r = (m, n)) ∧
    (∀ (m : ConnMap) (proto : String) (r : Record) (uv : Option String) (c : Conn),
      lookupA r "uid" = some uv → lookupA m uv = some c →
      lookupA (enrichRecordBatch m proto r) uv = some (enrichConnBatch c proto r) ∧
      enrichOf (enrichConnBatch c proto r) proto = enrichOf c proto ++ [r]) ∧
    (∀ (m : ConnMap) (n : Nat) (r : Record) (u t : String),
      r.getV "uid" = some u → strEmpty u = false →
      r.getV "ts" = some t → validTsStr t = true →
      rtIngestRecord (m, n) r = (setA m (some u) (connOfRecord t (some u) r), n + 1)) ∧
    (∀ (m : ConnMap) (logType : String) (r : Record) (u : String) (c : Conn),
      r.getV "uid" = some u → strEmpty u = false →
      lookupA m (some u) = some c →
      lookupA (rtEnrichRecord m logType r) (some u) = some (enrichConnRT c logType r) ∧
      enrichOf (enrichConnRT c logType r) logType = enrichOf c logType ++ [r]) := by
  refine ⟨?_, ?_, ?_, ?_⟩
  · intro m n r uv h1 h2
    simp [ingestConnRecord, h1, h2]
  · intro m proto r uv c h1 h2
    constructor
    · simp [enrichRecordBatch, h1, h2, lookupA_setA_self]
    · simp only [enrichConnBatch, enrichOf]
      split
      · simp [lookupA_appendEnrich]
      · simp [lookupA_appendEnrich]
  · intro m n r u t h1 h2 h3 h4
    simp [rtIngestRecord, h1, h2, h3, h4]
  · intro m logType r u c h1 h2 h3
    constructor
    · simp [rtEnrichRecord, h1, h2, h3, lookupA_setA_self]
    · simp only [enrichConnRT, enrichOf]
      split
      · simp [lookupA_appendEnrich]
      · simp [lookupA_appendEnrich]

theorem c1_witness :
    ingestConnRecord (exIngested, 1) exRecSecond = (exIngested, 1) ∧
    lookupA (enrichRecordBatch exIngested "http" exRecFirst) (some "u") =
      some (enrichConnBatch (connOfRecord "100.0" (some "u") exRecFirst) "http" exRecFirst) ∧
    rtIngestRecord (exIngested, 1) exRecSecond =
      (setA exIngested (some "u") (connOfRecord "101.0" (some "u") exRecSecond), 2) :=
  ⟨c1_amended_thm.1 exIngested 1 exRecSecond (some "u") (by decide) (by decide),
   (c1_amended_thm.2.1 exIngested "http" exRecFirst (some "u")
      (connOfRecord "100.0" (some "u") exRecFirst) (by decide) (by decide)).1,
   c1_amended_thm.2.2.1 exIngested 1 exRecSecond "u" "101.0"
      (by decide) (by decide) (by decide) (by decide)⟩

/-! ## C5 — timestamp validation on ingest -/

/-- C5 counterexample: `"1.2.3"` is not parseable as a (non-negative) decimal
number, so the claim requires the record to be dropped; the source's
validation only strips `.` and `-` and checks for digits, so both ingest paths
insert it. -/
theorem c5_counterexample :
    claimTsDrops "1.2.3" = true ∧
    (ingestConnRecord ([], 0) exRecBadTs).1 =
      [(some "u", connOfRecord "1.2.3" (some "u") exRecBadTs)] ∧
    (rtIngestRecord ([], 0) exRecBadTs).1 =
      [(some "u", connOfRecord "1.2.3" (some "u") exRecBadTs)] :=
  ⟨by decide, by decide, by decide⟩

/-- C5 (amended): in both ingest paths a record (with a fresh UID in the batch
path, a truthy UID in the real-time path) is dropped exactly when its
timestamp is missing, or fails the source's check "nonempty, no null byte, and
all digits after deleting every `.` and `-`"; this check is weaker than
"parseable as a non-negative decimal number" (e.g. `1.2.3` and `-5` pass it). -/
theorem c5_amended_thm :
    (∀ (m : ConnMap) (n : Nat) (r : Record) (uv : Option String),
      lookupA r "uid" = some uv → lookupA m uv = none →
      ((∀ t, r.getV "ts" = some t → validTsStr t = false) →
        ingestConnRecord (m, n) r = (m, n)) ∧
      (∀ t, r.getV "ts" = some t → validTsStr t = true →
        ingestConnRecord (m, n) r = (m ++ [(uv, connOfRecord t uv r)], n + 1))) ∧
    (∀ (m : ConnMap) (n : Nat) (r : Record) (u : String),
      r.getV "uid" = some u → strEmpty u = false →
      ((∀ t, r.getV "ts" = some t → validTsStr t = false) →
        rtIngestRecord (m, n) r = (m, n)) ∧
      (∀ t, r.getV "ts" = some t → validTsStr t = true →
        rtIngestRecord (m, n) r = (setA m (some u) (connOfRecord t (some u) r), n + 1))) := by
  constructor
  · intro m n r uv h1 h2
    constructor
    · intro hbad
      cases hts : r.getV "ts" with
      | none => simp [ingestConnRecord, h1, h2, hts]
      | some t => simp [ingestConnRecord, h1, h2, hts, hbad t hts]
    · intro t hts hval
      simp [ingestConnRecord, h1, h2, hts, hval]
  · intro m n r u h1 h2
    constructor
    · intro hbad
      cases hts : r.getV "ts" with
      | none => simp [rtIngestRecord, h1, h2, hts]
      | some t => simp [rtIngestRecord, h1, h2, hts, hbad t hts]
    · intro t hts hval
      simp [rtIngestRecord, h1, h2, hts, hval]

theorem c5_witness :
    ingestConnRecord ([], 0) exRecNonNumTs = ([], 0) ∧
    ingestConnRecord ([], 0) exRecGoodTs =
      ([(some "u", connOfRecord "100.0" (some "u") exRecGoodTs)], 1) ∧
    rtIngestRecord ([], 0) exRecNonNumTs = ([], 0) ∧
    rtIngestRecord ([], 0) exRecGoodTs =
      (setA [] (some "u") (connOfRecord "100.0" (some "u") exRecGoodTs), 1) :=
  ⟨(c5_amended_thm.1 [] 0 exRecNonNumTs (some "u") (by decide) (by decide)).1
      (by decide),
   (c5_amended_thm.1 [] 0 exRecGoodTs (some "u") (by decide) (by decide)).2
      "100.0" (by decide) (by decide),
   (c5_amended_thm.2 [] 0 exRecNonNumTs "u" (by decide) (by decide)).1
      (by decide),
   (c5_amended_thm.2 [] 0 exRecGoodTs "u" (by decide) (by decide)).2
      "100.0" (by decide) (by decide)⟩

/-! ## C6 — CSV sink contract -/

/-- C6 counterexample: the claim extends the append contract to batch mode,
but `write_nslkdd_format` opens the destination with mode `'w'`: handed a file
already holding one row, it leaves a file holding only the header — the prior
contents are rewritten, not preserved. -/
theorem c6_counterexample :
    write_nslkdd_format (some [CsvLine.row exFeature]) [] = [CsvLine.headerLine] ∧
    CsvLine.headerLine ≠ CsvLine.row exFeature :=
  ⟨rfl, by decide⟩

/-- C6 (amended): the real-time sink `append_to_nslkdd_file` follows the
append contract — header plus rows when the file does not exist, pure
appending of the rows (order preserved) when it does; the batch sink
`write_nslkdd_format` instead always writes header plus rows, discarding any
prior contents. -/
theorem c6_amended_thm :
    (∀ (recs : List FeatureRec),
      append_to_nslkdd_file none recs = CsvLine.headerLine :: recs.map CsvLine.row) ∧
    (∀ (ls : List CsvLine) (recs : List FeatureRec),
      append_to_nslkdd_file (some ls) recs = ls ++ recs.map CsvLine.row) ∧
    (∀ (old : Option (List CsvLine)) (recs : List FeatureRec),
      write_nslkdd_format old recs = CsvLine.headerLine :: recs.map CsvLine.row) :=
  ⟨fun _ => rfl, fun _ _ => rfl, fun _ _ => rfl⟩

/-! ## C8 — ledger verification -/

theorem lookupA_mem {α β : Type _} [DecidableEq α] (l : List (α × β)) (k : α) (v : β)
    (h : lookupA l k = some v) : (k, v) ∈ l := by
  induction l with
  | nil => simp [lookupA] at h
  | cons p rest ih =>
    by_cases hp : p.1 = k
    · simp [lookupA, hp] at h
      have hkv : (k, v) = p := by rw [← hp, ← h]
      rw [hkv]
      exact List.mem_cons_self p rest
    · simp [lookupA, hp] at h
      exact List.mem_cons_of_mem _ (ih h)

theorem lookupA_of_nodup_mem {β : Type _} (pos : List (String × β)) (k : String) (v : β)
    (hnd : (pos.map Prod.fst).Nodup) (hk : lookupA pos k = some v) :
    ∀ p ∈ pos, p.1 = k → p.2 = v := by
  induction pos with
  | nil => simp
  | cons q rest ih =>
    simp only [List.map_cons, List.nodup_cons] at hnd
    intro p hp hpk
    rcases List.mem_cons.mp hp with hp | hp
    · subst hp
      rw [lookupA, if_pos hpk] at hk
      exact Option.some.inj hk
    · by_cases hq : q.1 = k
      · exfalso
        apply hnd.1
        rw [hq, ← hpk]
        exact List.mem_map_of_mem Prod.fst hp
      · rw [lookupA, if_neg hq] at hk
        exact ih hnd.2 hk p hp hpk

theorem lookupA_map_reset {β : Type _} (f : String → Bool) (pos : List (String × β)) (z : β)
    (k : String) (v : β) (hk : lookupA pos k = some v) :
    lookupA (pos.map (fun p => if f p.1 then (p.1, z) else p)) k =
      some (if f k then z else v) := by
  induction pos with
  | nil => simp [lookupA] at hk
  | cons q rest ih =>
    rw [List.map_cons]
    by_cases hq : q.1 = k
    · rw [lookupA, if_pos hq] at hk
      have hv : q.2 = v := Option.some.inj hk
      by_cases hf : f q.1 = true
      · have hfk : f k = true := by rw [← hq]; exact hf
        simp [hf, lookupA, hq, hfk]
      · have hfk : ¬f k = true := by rw [← hq]; exact hf
        simp [hf, lookupA, hq, hfk, hv]
    · rw [lookupA, if_neg hq] at hk
      by_cases hf : f q.1 = true
      · simp only [hf, if_true, lookupA, hq, if_neg, Bool.false_eq_true]
        exact ih hk
      · simp only [hf, if_false, lookupA, hq, if_neg, Bool.false_eq_true]
        exact ih hk

/-- C8 counterexample: a 5-line, 100-byte file with recorded offset 160: the
estimated lines read (160 ÷ 20 = 8) exceeds the line count by more than 50%
(8 > 7.5) and the offset is within the byte-size tolerance, so the claim says
the entry must be reset; `verify_file_positions` leaves it unchanged because
the statistical check only fires for files with more than 10 lines. -/
theorem c8_counterexample :
    ratMul (((5 : ℕ) : ℚ)) (mkRat 3 2) < estLinesRead ⟨100, 5⟩ 160 ∧
    ¬(100 + 100 < 160) ∧
    verify_file_positions [("f", ⟨100, 5⟩)] [("f", 160)] = [("f", 160)] :=
  ⟨by decide, by decide, by decide⟩

/-- C8 (amended): for a ledger entry over an existing file, the verify pass
(`verify_file_positions`, which the monitoring loop never actually invokes)
resets the entry to zero exactly when the offset exceeds the byte size by more
than the 100-byte tolerance, or when the offset is positive, the file has more
than 10 lines, and the estimated lines-read exceeds the line count by more
than 50%; otherwise the entry is returned unchanged. -/
theorem c8_amended_thm (fsys : List (String × FileStat)) (pos : Ledger) (k : String)
    (v : Nat) (fs : FileStat) (hnd : (pos.map Prod.fst).Nodup)
    (hk : lookupA pos k = some v) (hf : lookupA fsys k = some fs) :
    lookupA (verify_file_positions fsys pos) k =
      some (if fs.size + 100 < v ∨
              (0 < v ∧ 10 < fs.lineCount ∧
               ratMul ((fs.lineCount : ℕ) : ℚ) (mkRat 3 2) < estLinesRead fs v)
            then 0 else v) := by
  have hbridge :
      (resetKeys fsys pos).contains k = true ↔
      (fs.size + 100 < v ∨
        (0 < v ∧ 10 < fs.lineCount ∧
         ratMul ((fs.lineCount : ℕ) : ℚ) (mkRat 3 2) < estLinesRead fs v)) := by
    simp only [resetKeys, List.contains, List.elem_iff, List.mem_map, List.mem_filter]
    constructor
    · rintro ⟨p, ⟨hpmem, hP⟩, hpk⟩
      have hv := lookupA_of_nodup_mem pos k v hnd hk p hpmem hpk
      rw [hpk, hv, hf] at hP
      simpa [shouldResetPos, Bool.or_eq_true, Bool.and_eq_true, decide_eq_true_eq,
        and_assoc] using hP
    · intro hc
      refine ⟨(k, v), ⟨lookupA_mem pos k v hk, ?_⟩, rfl⟩
      simpa [shouldResetPos, hf, Bool.or_eq_true, Bool.and_eq_true, decide_eq_true_eq,
        and_assoc] using hc
  unfold verify_file_positions
  rw [lookupA_map_reset (fun s => (resetKeys fsys pos).contains s) pos 0 k v hk]
  by_cases hc :
      (fs.size + 100 < v ∨
        (0 < v ∧ 10 < fs.lineCount ∧
         ratMul ((fs.lineCount : ℕ) : ℚ) (mkRat 3 2) < estLinesRead fs v))
  · have hcb := hbridge.mpr hc
    rw [if_pos hc]
    show some (if (resetKeys fsys pos).contains k = true then 0 else v) = some 0
    rw [if_pos hcb]
  · have hcb : (resetKeys fsys pos).contains k = false :=
      Bool.eq_false_iff.mpr (fun h => hc (hbridge.mp h))
    rw [if_neg hc]
    show some (if (resetKeys fsys pos).contains k = true then 0 else v) = some v
    rw [if_neg (by rw [hcb]; exact Bool.false_ne_true)]

theorem c8_witness :
    lookupA (verify_file_positions [("f", ⟨100, 5⟩)] [("f", 300)]) "f" = some 0 := by
  have h := c8_amended_thm [("f", ⟨100, 5⟩)] [("f", 300)] "f" 300 ⟨100, 5⟩
    (by decide) (by decide) (by decide)
  rw [h]
  decide

/-! ## C10 — bulk-sink enrichment alignment -/

/-- C10: the claim says the `i`-th enriched document describes the connection
that produced the `i`-th feature record, and the code's own comment says it
retrieves "l'identifiant de connexion correspondant"; but feature records are
emitted in ascending timestamp order while `enrich_data_for_elasticsearch`
pairs document `i` with the `i`-th *insertion-order* key.  On `exEsM`
(insertion order `u1` at ts 200.0 with 5 source bytes, then `u2` at ts 100.0
with 7), the first feature record is `u2`'s (`src_bytes = 7`) yet the first
document carries `u1`'s uid and counters (`bytes_in = "5"`). -/
theorem c10_bug_eval :
    (compute_nslkdd_features exEsM).map (fun rs => rs.map (·.src_bytes)) = some [7, 5] ∧
    (enrich_data_for_elasticsearch exEsM ((compute_nslkdd_features exEsM).getD [])).map
        (fun d => (d.connUid, d.bytesIn, d.base.src_bytes)) =
      [(some "u1", some "5", (7 : Int)), (some "u2", some "7", (5 : Int))] :=
  ⟨by decide, by decide⟩

/-! ## Destructuring lemmas for the feature loop -/

theorem featureGo_cons_eq (host srv : GroupMap) (c : Conn) (rest : List Conn)
    (recs : List FeatureRec) :
    featureGo host srv (c :: rest) = some recs ↔
    ∃ srvCnt srv1,
      computeSameServiceCount c srv = some (srvCnt, srv1) ∧
      ∃ fr,
        mkFeatureRec c (computeSameHostCount c (updateHost host c)) srvCnt
          (computeErrorRates c (updateHost host c) srv1) = some fr ∧
        ∃ frs, featureGo (updateHost host c) srv1 rest = some frs ∧ fr :: frs = recs := by
  constructor
  · intro h
    rw [featureGo] at h
    split at h
    · exact absurd h (by simp)
    · rename_i srvCnt srv1 hs
      split at h
      · exact absurd h (by simp)
      · rename_i fr hm
        split at h
        · exact absurd h (by simp)
        · rename_i frs hg
          simp only [Option.some.injEq] at h
          exact ⟨srvCnt, srv1, hs, fr, hm, frs, hg, h⟩
  · rintro ⟨srvCnt, srv1, hs, fr, hm, frs, hg, hrecs⟩
    rw [featureGo, hs]
    simp only [hm, hg, hrecs]

theorem mkFeatureRec_fields (c : Conn) (cnt srvCnt : Nat) (er : ErrorRates)
    (fr : FeatureRec) (h : mkFeatureRec c cnt srvCnt er = some fr) :
    fr.count = cnt ∧ fr.srv_count = srvCnt ∧ fr.serror_rate = er.serror ∧
    fr.srv_serror_rate = er.srvSerror ∧ fr.rerror_rate = er.rerror := by
  rw [mkFeatureRec] at h
  split at h
  · simp only [Option.some.injEq] at h
    rw [← h]
    exact ⟨rfl, rfl, rfl, rfl, rfl⟩
  · exact absurd h (by simp)

/-! ## C4 — error-rate range and empty-window behaviour -/

theorem frac_bounds (k n : ℕ) (hk : k ≤ n) (hn : 0 < n) :
    0 ≤ ratDiv (k : ℚ) (n : ℚ) ∧ ratDiv (k : ℚ) (n : ℚ) ≤ 1 := by
  rw [ratDiv_eq]
  have hn' : (0 : ℚ) < (n : ℚ) := by exact_mod_cast hn
  constructor
  · positivity
  · rw [div_le_one hn']
    exact_mod_cast hk

theorem rateIf_bounds (l : List Conn) (p : Conn → Bool) :
    0 ≤ (if l.isEmpty then (0 : ℚ) else ratDiv ((l.filter p).length : ℚ) (l.length : ℚ)) ∧
    (if l.isEmpty then (0 : ℚ) else ratDiv ((l.filter p).length : ℚ) (l.length : ℚ)) ≤ 1 := by
  split
  · norm_num
  · rename_i h
    have hne : l ≠ [] := by simpa [List.isEmpty_iff] using h
    exact frac_bounds _ _ (List.length_filter_le p l) (List.length_pos.mpr hne)

theorem computeErrorRates_bounds (c : Conn) (host srv : GroupMap) :
    (0 ≤ (computeErrorRates c host srv).serror ∧ (computeErrorRates c host srv).serror ≤ 1) ∧
    (0 ≤ (computeErrorRates c host srv).srvSerror ∧
      (computeErrorRates c host srv).srvSerror ≤ 1) ∧
    (0 ≤ (computeErrorRates c host srv).rerror ∧ (computeErrorRates c host srv).rerror ≤ 1) := by
  rw [computeErrorRates]
  split
  · norm_num
  · exact ⟨rateIf_bounds _ _, rateIf_bounds _ _, rateIf_bounds _ _⟩

theorem computeErrorRates_empty (c : Conn) (host srv : GroupMap) :
    (sameHostConns c host = [] →
      (computeErrorRates c host srv).serror = 0 ∧ (computeErrorRates c host srv).rerror = 0) ∧
    (sameSrvConns c srv = [] → (computeErrorRates c host srv).srvSerror = 0) := by
  rw [computeErrorRates]
  split
  · simp
  · constructor
    · intro h
      simp [h]
    · intro h
      simp [h]

theorem featureGo_rate_bounds (l : List Conn) :
    ∀ (host srv : GroupMap) (recs : List FeatureRec),
      featureGo host srv l = some recs →
      ∀ fr ∈ recs,
        (0 ≤ fr.serror_rate ∧ fr.serror_rate ≤ 1) ∧
        (0 ≤ fr.srv_serror_rate ∧ fr.srv_serror_rate ≤ 1) ∧
        (0 ≤ fr.rerror_rate ∧ fr.rerror_rate ≤ 1) := by
  induction l with
  | nil =>
    intro host srv recs h fr hfr
    rw [featureGo] at h
    simp only [Option.some.injEq] at h
    rw [← h] at hfr
    simp at hfr
  | cons c rest ih =>
    intro host srv recs h fr hfr
    rw [featureGo_cons_eq] at h
    obtain ⟨srvCnt, srv1, hs, fr0, hm, frs, hg, hrecs⟩ := h
    rw [← hrecs] at hfr
    rcases List.mem_cons.mp hfr with hfr | hfr
    · subst hfr
      obtain ⟨-, -, h1, h2, h3⟩ := mkFeatureRec_fields _ _ _ _ _ hm
      rw [h1, h2, h3]
      have hb := computeErrorRates_bounds c (updateHost host c) srv1
      exact ⟨hb.1, hb.2.1, hb.2.2⟩
    · exact ih _ _ _ hg fr hfr

/-- C4 counterexample: the claim says a rate is `0.0` exactly when its window
is empty.  For the lone normally-closed connection `exSF`, the same-host-pair
window contains the connection itself (nonempty), yet its `serror_rate` is
`0.0` — the "only if empty" direction is false. -/
theorem c4_counterexample :
    (featurePass [exSF]).map (fun rs => rs.map (·.serror_rate)) = some [0] ∧
    specHostWindow [exSF] exSF ≠ [] :=
  ⟨by decide, by decide⟩

/-- C4 (amended): every emitted `serror_rate`, `srv_serror_rate` and
`rerror_rate` lies in `[0, 1]`, and each rate is `0.0` whenever its window is
empty; but `0.0` does not imply the window is empty (a nonempty window with no
matching error state also yields `0.0`). -/
theorem c4_amended_thm :
    (∀ (l : List Conn) (recs : List FeatureRec), featurePass l = some recs →
      ∀ fr ∈ recs,
        (0 ≤ fr.serror_rate ∧ fr.serror_rate ≤ 1) ∧
        (0 ≤ fr.srv_serror_rate ∧ fr.srv_serror_rate ≤ 1) ∧
        (0 ≤ fr.rerror_rate ∧ fr.rerror_rate ≤ 1)) ∧
    (∀ (c : Conn) (host srv : GroupMap),
      (sameHostConns c host = [] →
        (computeErrorRates c host srv).serror = 0 ∧
        (computeErrorRates c host srv).rerror = 0) ∧
      (sameSrvConns c srv = [] → (computeErrorRates c host srv).srvSerror = 0)) :=
  ⟨fun l recs h => featureGo_rate_bounds l [] [] recs h,
   fun c host srv => computeErrorRates_empty c host srv⟩

theorem c4_witness :
    ((0 ≤ exSFRec.serror_rate ∧ exSFRec.serror_rate ≤ 1) ∧
     (0 ≤ exSFRec.srv_serror_rate ∧ exSFRec.srv_serror_rate ≤ 1) ∧
     (0 ≤ exSFRec.rerror_rate ∧ exSFRec.rerror_rate ≤ 1)) ∧
    (computeErrorRates baseConn [] []).serror = 0 ∧
    (computeErrorRates baseConn [] []).rerror = 0 ∧
    (computeErrorRates baseConn [] []).srvSerror = 0 := by
  have hb := c4_amended_thm.1 [exSF] [exSFRec] (by decide) exSFRec (by decide)
  have he := c4_amended_thm.2 baseConn [] []
  exact ⟨hb, (he.1 (by decide)).1, (he.1 (by decide)).2, he.2 (by decide)⟩

/-! ## C3 — the current connection counts toward its own windows -/

theorem mem_bucket_updateHost (host : GroupMap) (c : Conn) (s : String)
    (h : c.origH = some s) (hse : strEmpty s = false) :
    c ∈ bucketOf (updateHost host c) c.origH := by
  rw [h]
  cases hl : lookupA host s with
  | some l =>
    simp [bucketOf, updateHost, h, hse, hl, lookupA_setA_self]
  | none =>
    simp [bucketOf, updateHost, h, hse, hl, lookupA_append_of_none _ _ _ hl, lookupA]

theorem computeSameHostCount_ge_one (host : GroupMap) (c : Conn)
    (hts : strEmpty c.ts = false) (ho : truthy c.origH = true) (hr : truthy c.respH = true) :
    1 ≤ computeSameHostCount c (updateHost host c) := by
  obtain ⟨s, hs, hse⟩ : ∃ s, c.origH = some s ∧ strEmpty s = false := by
    cases ho' : c.origH with
    | none => rw [ho'] at ho; simp [truthy] at ho
    | some s =>
      refine ⟨s, rfl, ?_⟩
      rw [ho'] at ho
      simpa [truthy] using ho
  have hcond : (strEmpty c.ts || !truthy c.respH) = false := by rw [hts, hr]; rfl
  rw [computeSameHostCount, hcond]
  simp only [Bool.false_eq_true, if_false]
  have hmem := mem_bucket_updateHost host c s hs hse
  have hw : ratSub (getTimestamp c) 2 ≤ getTimestamp c := by
    rw [ratSub_eq]; linarith
  have hpred : (decide (c.respH = c.respH) &&
      decide (ratSub (getTimestamp c) 2 ≤ getTimestamp c) &&
      decide (getTimestamp c ≤ getTimestamp c)) = true := by
    simp [hw]
  have hmf : c ∈ (bucketOf (updateHost host c) c.origH).filter
      (fun d => decide (d.respH = c.respH) &&
        decide (ratSub (getTimestamp c) 2 ≤ getTimestamp d) &&
        decide (getTimestamp d ≤ getTimestamp c)) :=
    List.mem_filter.mpr ⟨hmem, hpred⟩
  have := List.length_pos.mpr (List.ne_nil_of_mem hmf)
  omega

theorem srvWindowCount_ge_one (t : ℚ) (c : Conn) (q : ℚ) (hq : parseTsQ c.ts = some q)
    (h1 : ratSub t 2 ≤ q) (h2 : q ≤ t) :
    ∀ (ds : List Conn) (n : Nat), srvWindowCount t ds = some n → c ∈ ds → 1 ≤ n := by
  intro ds
  induction ds with
  | nil =>
    intro n h hc
    simp at hc
  | cons d ds' ih =>
    intro n h hc
    rw [srvWindowCount] at h
    cases hp : parseTsQ d.ts with
    | none => rw [hp] at h; simp at h
    | some qd =>
      rw [hp] at h
      cases hrec : srvWindowCount t ds' with
      | none => rw [hrec] at h; simp at h
      | some m =>
        rw [hrec] at h
        simp only [Option.map_some', Option.some.injEq] at h
        rcases List.mem_cons.mp hc with hcd | hc'
        · have hqd : qd = q := by
            rw [← hcd] at hp
            rw [hp] at hq
            exact Option.some.inj hq
          rw [← h, if_pos (by rw [hqd]; exact ⟨h1, h2⟩)]
          omega
        · have := ih m hrec hc'
          rw [← h]
          split <;> omega

theorem computeSameServiceCount_ge_one (srv : GroupMap) (c : Conn) (srvCnt : Nat)
    (srv1 : GroupMap) (hts : strEmpty c.ts = false) (hsv : truthy c.service = true)
    (h : computeSameServiceCount c srv = some (srvCnt, srv1)) : 1 ≤ srvCnt := by
  obtain ⟨s, hs, hse⟩ : ∃ s, c.service = some s ∧ strEmpty s = false := by
    cases hsv' : c.service with
    | none => rw [hsv'] at hsv; simp [truthy] at hsv
    | some s =>
      refine ⟨s, rfl, ?_⟩
      rw [hsv'] at hsv
      simpa [truthy] using hsv
  have hcond : (strEmpty c.ts || !truthy c.service) = false := by rw [hts, hsv]; rfl
  rw [computeSameServiceCount, hcond] at h
  simp only [Bool.false_eq_true, if_false] at h
  cases hp : parseTsQ c.ts with
  | none => rw [hp, hs] at h; simp at h
  | some curTs =>
    rw [hp, hs] at h
    dsimp only at h
    have hmem : c ∈ ((lookupA (match lookupA srv s with
        | some l => setA srv s (l ++ [c])
        | none => srv ++ [(s, [c])]) s).getD []) := by
      cases hl : lookupA srv s with
      | some l => simp [hl, lookupA_setA_self]
      | none => simp [hl, lookupA_append_of_none _ _ _ hl, lookupA]
    cases hw : srvWindowCount curTs ((lookupA (match lookupA srv s with
        | some l => setA srv s (l ++ [c])
        | none => srv ++ [(s, [c])]) s).getD []) with
    | none => rw [hw] at h; simp at h
    | some n =>
      rw [hw] at h
      simp only [Option.map_some', Option.some.injEq, Prod.mk.injEq] at h
      have hsub : ratSub curTs 2 ≤ curTs := by rw [ratSub_eq]; linarith
      have := srvWindowCount_ge_one curTs c curTs hp hsub le_rfl _ n hw hmem
      omega

theorem featureGo_counts_ge_one (l : List Conn) :
    ∀ (host srv : GroupMap) (recs : List FeatureRec),
      (∀ c ∈ l, strEmpty c.ts = false ∧ truthy c.origH = true ∧ truthy c.respH = true ∧
        truthy c.service = true) →
      featureGo host srv l = some recs →
      ∀ fr ∈ recs, 1 ≤ fr.count ∧ 1 ≤ fr.srv_count := by
  induction l with
  | nil =>
    intro host srv recs hp h fr hfr
    rw [featureGo] at h
    simp only [Option.some.injEq] at h
    rw [← h] at hfr
    simp at hfr
  | cons c rest ih =>
    intro host srv recs hp h fr hfr
    rw [featureGo_cons_eq] at h
    obtain ⟨srvCnt, srv1, hs, fr0, hm, frs, hg, hrecs⟩ := h
    rw [← hrecs] at hfr
    obtain ⟨hcts, hco, hcr, hcs⟩ := hp c (List.mem_cons_self c rest)
    rcases List.mem_cons.mp hfr with hfr | hfr
    · subst hfr
      obtain ⟨h1, h2, -, -, -⟩ := mkFeatureRec_fields _ _ _ _ _ hm
      rw [h1, h2]
      exact ⟨computeSameHostCount_ge_one host c hcts hco hcr,
        computeSameServiceCount_ge_one srv c srvCnt srv1 hcts hcs hs⟩
    · exact ih _ _ _ (fun d hd => hp d (List.mem_cons_of_mem c hd)) hg fr hfr

/-- C3 counterexample: a connection whose `service` field was `-` (and whose
hosts and timestamp are present) gets `srv_count = 0` —
`compute_same_service_count` returns `0` before touching the window when the
service is falsy — refuting "`srv_count` is at least 1 for every
FeatureVector". -/
theorem c3_counterexample :
    (featurePass [exNoSvc]).map (fun rs => rs.map (·.srv_count)) = some [0] := by decide

/-- C3 (amended): the current connection does count toward its own windows, so
whenever a connection carries a source host, a destination host, a nonempty
timestamp and a service, its emitted `count` and `srv_count` are at least 1;
but a connection missing the destination host (resp. the service) gets
`count = 0` (resp. `srv_count = 0`). -/
theorem c3_amended_thm (l : List Conn) (recs : List FeatureRec)
    (hp : ∀ c ∈ l, strEmpty c.ts = false ∧ truthy c.origH = true ∧ truthy c.respH = true ∧
      truthy c.service = true)
    (h : featurePass l = some recs) :
    ∀ fr ∈ recs, 1 ≤ fr.count ∧ 1 ≤ fr.srv_count :=
  featureGo_counts_ge_one l [] [] recs hp h

theorem c3_witness : 1 ≤ exSFRec.count ∧ 1 ≤ exSFRec.srv_count :=
  c3_amended_thm [exSF] [exSFRec] (by decide) (by decide) exSFRec (by decide)

/-! ## C2 — window count against the incremental index -/

theorem bucket_updateHost_self (host : GroupMap) (c : Conn) (s : String)
    (hc : c.origH = some s) (hse : strEmpty s = false) :
    (lookupA (updateHost host c) s).getD [] = (lookupA host s).getD [] ++ [c] := by
  cases hl : lookupA host s with
  | some l => simp [updateHost, hc, hse, hl, lookupA_setA_self]
  | none => simp [updateHost, hc, hse, hl, lookupA_append_of_none _ _ _ hl, lookupA]

theorem bucket_updateHost_other (host : GroupMap) (c : Conn) (s k : String)
    (hc : c.origH = some s) (hse : strEmpty s = false) (hk : k ≠ s) :
    lookupA (updateHost host c) k = lookupA host k := by
  rw [updateHost, hc]
  simp only [hse, Bool.false_eq_true, if_false]
  cases hl : lookupA host s with
  | some l => exact lookupA_setA_ne host k s _ (fun h => hk h.symm)
  | none =>
    cases hkk : lookupA host k with
    | some v => exact lookupA_append_of_some _ _ _ _ hkk
    | none =>
      rw [lookupA_append_of_none _ _ _ hkk]
      show (if s = k then some [c] else lookupA ([] : GroupMap) k) = none
      rw [if_neg (fun h : s = k => hk h.symm)]
      rfl

theorem bucket_inv_updateHost (host : GroupMap) (scanned : List Conn) (c : Conn) (s : String)
    (hinv : ∀ k : String, (lookupA host k).getD [] =
      scanned.filter (fun d => decide (d.origH = some k)))
    (hc : c.origH = some s) (hse : strEmpty s = false) :
    ∀ k : String, (lookupA (updateHost host c) k).getD [] =
      (scanned ++ [c]).filter (fun d => decide (d.origH = some k)) := by
  intro k
  rw [List.filter_append]
  by_cases hk : k = s
  · rw [hk, bucket_updateHost_self host c s hc hse, hinv s]
    congr 1
    simp [List.filter, hc]
  · rw [bucket_updateHost_other host c s k hc hse hk, hinv k]
    have hcf : (fun (d : Conn) => decide (d.origH = some k)) c = false := by
      simp only [hc, decide_eq_false_iff_not]
      intro h
      exact hk (Option.some.inj h).symm
    simp [List.filter, hcf]

theorem count_eq_spec (host : GroupMap) (scanned : List Conn) (c : Conn) (s : String)
    (hinv : ∀ k : String, (lookupA host k).getD [] =
      scanned.filter (fun d => decide (d.origH = some k)))
    (hsome : c.origH = some s) (hse : strEmpty s = false)
    (hts : strEmpty c.ts = false) (hr : truthy c.respH = true) :
    computeSameHostCount c (updateHost host c) = specHostWindowCount (scanned ++ [c]) c := by
  have hinv1 := bucket_inv_updateHost host scanned c s hinv hsome hse
  have hcond : (strEmpty c.ts || !truthy c.respH) = false := by rw [hts, hr]; rfl
  rw [computeSameHostCount, hcond]
  simp only [Bool.false_eq_true, if_false]
  rw [specHostWindowCount, specHostWindow]
  have hb : bucketOf (updateHost host c) c.origH = (lookupA (updateHost host c) s).getD [] := by
    rw [hsome]
    rfl
  rw [hb]
  rw [hinv1 s, List.filter_filter]
  apply congrArg List.length
  apply List.filter_congr
  intro d _
  rw [hsome]
  cases hA : decide (d.origH = some s) <;> cases hB : decide (d.respH = c.respH) <;>
    cases hC : decide (ratSub (getTimestamp c) 2 ≤ getTimestamp d) <;>
    cases hD : decide (getTimestamp d ≤ getTimestamp c) <;> rfl

theorem featureGo_counts_spec (l : List Conn) :
    ∀ (host srv : GroupMap) (scanned : List Conn) (recs : List FeatureRec),
      (∀ k : String, (lookupA host k).getD [] =
        scanned.filter (fun d => decide (d.origH = some k))) →
      (∀ c ∈ l, strEmpty c.ts = false ∧ truthy c.origH = true ∧ truthy c.respH = true) →
      featureGo host srv l = some recs →
      recs.map (·.count) = specCountsAux scanned l := by
  induction l with
  | nil =>
    intro host srv scanned recs hinv hp h
    rw [featureGo] at h
    simp only [Option.some.injEq] at h
    rw [← h, specCountsAux]
    rfl
  | cons c rest ih =>
    intro host srv scanned recs hinv hp h
    rw [featureGo_cons_eq] at h
    obtain ⟨srvCnt, srv1, hs, fr0, hm, frs, hg, hrecs⟩ := h
    obtain ⟨hcts, hco, hcr⟩ := hp c (List.mem_cons_self c rest)
    obtain ⟨s, hsome, hse⟩ : ∃ s, c.origH = some s ∧ strEmpty s = false := by
      cases ho' : c.origH with
      | none => rw [ho'] at hco; simp [truthy] at hco
      | some s =>
        refine ⟨s, rfl, ?_⟩
        rw [ho'] at hco
        simpa [truthy] using hco
    rw [← hrecs, List.map_cons, specCountsAux]
    congr 1
    · obtain ⟨h1, -, -, -, -⟩ := mkFeatureRec_fields _ _ _ _ _ hm
      rw [h1]
      exact count_eq_spec host scanned c s hinv hsome hse hcts hcr
    · exact ih (updateHost host c) srv1 (scanned ++ [c]) frs
        (bucket_inv_updateHost host scanned c s hinv hsome hse)
        (fun d hd => hp d (List.mem_cons_of_mem c hd)) hg

/-- C2: for connections carrying source host, destination host and a nonempty
timestamp, the emitted `count` of each connection equals the number of
connections sharing its (source host, destination host) pair whose timestamp
lies in the inclusive window `[current_ts − 2, current_ts]`, counted against
the index built incrementally as connections are scanned (the connections
scanned so far, the current one included) — in particular `[1, 2, 1]` on the
100.0 / 100.5 / 103.0 example (see the witness). -/
theorem c2_thm (l : List Conn) (recs : List FeatureRec)
    (hp : ∀ c ∈ l, strEmpty c.ts = false ∧ truthy c.origH = true ∧ truthy c.respH = true)
    (h : featurePass l = some recs) :
    recs.map (·.count) = specCountsAux [] l := by
  refine featureGo_counts_spec l [] [] [] recs ?_ hp h
  intro k
  rfl

theorem c2_witness :
    exWinRecs.map (·.count) = specCountsAux [] exWin ∧ specCountsAux [] exWin = [1, 2, 1] :=
  ⟨c2_thm exWin exWinRecs (by decide) (by decide), by decide⟩

/-! ## C7 — idempotence of the real-time read path -/

theorem processRTConnLog_fix (lines : List String) (start : Nat) (m : ConnMap) (n : Nat)
    (h : lines.length ≤ start) : processRTConnLog lines start m n = ((m, n), start) := by
  simp only [processRTConnLog]
  rw [List.drop_eq_nil_of_le h]
  rfl

theorem processRTConnLog_snd_ge (lines : List String) (start : Nat) (m : ConnMap) (n : Nat) :
    lines.length ≤ (processRTConnLog lines start m n).2 := by
  show lines.length ≤ start + (lines.drop start).length
  rw [List.length_drop]
  omega

theorem processRTServiceLog_fix (logType : String) (lines : List String) (start : Nat)
    (m : ConnMap) (h : lines.length ≤ start) :
    processRTServiceLog logType lines start m = (m, start) := by
  simp only [processRTServiceLog]
  rw [List.drop_eq_nil_of_le h]
  rfl

theorem processRTServiceLog_snd_ge (logType : String) (lines : List String) (start : Nat)
    (m : ConnMap) : lines.length ≤ (processRTServiceLog logType lines start m).2 := by
  show lines.length ≤ start + (lines.drop start).length
  rw [List.length_drop]
  omega

theorem rtConnStage_good (files : FileSys) (pos : Ledger) (lines : List String)
    (h : lookupA files "conn.log" = some (some lines)) :
    ∃ v, lookupA (rtConnStage files pos).2.2 (rtPath "conn.log") = some v ∧
      lines.length ≤ v := by
  simp only [rtConnStage, h]
  exact ⟨(processRTConnLog lines ((lookupA pos (rtPath "conn.log")).getD 0) [] 0).2,
    lookupA_setA_self _ _ _, processRTConnLog_snd_ge _ _ _ _⟩

theorem rtConnStage_fix_readable (files : FileSys) (pos : Ledger) (lines : List String)
    (v : Nat) (h : lookupA files "conn.log" = some (some lines))
    (hv : lookupA pos (rtPath "conn.log") = some v) (hle : lines.length ≤ v) :
    rtConnStage files pos = ([], 0, pos) := by
  simp only [rtConnStage, h, hv, Option.getD_some]
  rw [processRTConnLog_fix lines v [] 0 hle]
  dsimp only
  rw [setA_self pos _ v hv]

theorem rtServiceStep_ledger_other (files : FileSys) (acc : ConnMap × Ledger) (f : String)
    (k : String) (hk : k ≠ rtPath f) :
    lookupA (rtServiceStep files acc f).2 k = lookupA acc.2 k := by
  rw [rtServiceStep]
  by_cases hf : f = "conn.log"
  · rw [if_pos hf]
  · rw [if_neg hf]
    cases hl : lookupA files f with
    | none => rfl
    | some content =>
      cases content with
      | none => rfl
      | some lines => exact lookupA_setA_ne _ _ _ _ (fun h => hk h.symm)

theorem rtFold_ledger_preserve (files : FileSys) (names : List String)
    (acc : ConnMap × Ledger) (k : String)
    (h : ∀ f ∈ names, f ≠ "conn.log" → rtPath f ≠ k) :
    lookupA (names.foldl (rtServiceStep files) acc).2 k = lookupA acc.2 k := by
  induction names generalizing acc with
  | nil => rfl
  | cons g rest ih =>
    rw [List.foldl_cons,
      ih (rtServiceStep files acc g) (fun f hf => h f (List.mem_cons_of_mem g hf))]
    by_cases hg : g = "conn.log"
    · rw [rtServiceStep, if_pos hg]
    · exact rtServiceStep_ledger_other files acc g k
        (fun he => h g (List.mem_cons_self g rest) hg he.symm)

theorem rtFold_good (files : FileSys) (names : List String)
    (hinj : ∀ f ∈ names, ∀ g ∈ names, rtPath f = rtPath g → f = g)
    (hnd : names.Nodup) :
    ∀ (acc : ConnMap × Ledger), ∀ f ∈ names, f ≠ "conn.log" →
      ∀ lines, lookupA files f = some (some lines) →
      ∃ v, lookupA (names.foldl (rtServiceStep files) acc).2 (rtPath f) = some v ∧
        lines.length ≤ v := by
  induction names with
  | nil =>
    intro acc f hf
    simp at hf
  | cons g rest ih =>
    intro acc f hf hfc lines hl
    rw [List.foldl_cons]
    rcases List.mem_cons.mp hf with rfl | hf'
    · have hpres :
          lookupA (rest.foldl (rtServiceStep files) (rtServiceStep files acc f)).2 (rtPath f) =
          lookupA (rtServiceStep files acc f).2 (rtPath f) := by
        apply rtFold_ledger_preserve
        intro g' hg' hg'c heq
        have hgf : g' = f :=
          hinj g' (List.mem_cons_of_mem _ hg') f (List.mem_cons_self _ _) heq
        rw [hgf] at hg'
        exact (List.nodup_cons.mp hnd).1 hg'
      rw [hpres, rtServiceStep, if_neg hfc, hl]
      exact ⟨(processRTServiceLog ((strSplitOnChar '.' f).headD "") lines
          ((lookupA acc.2 (rtPath f)).getD 0) acc.1).2,
        lookupA_setA_self _ _ _, processRTServiceLog_snd_ge _ _ _ _⟩
    · exact ih
        (fun a ha b hb => hinj a (List.mem_cons_of_mem g ha) b (List.mem_cons_of_mem g hb))
        (List.nodup_cons.mp hnd).2
        (rtServiceStep files acc g) f hf' hfc lines hl

theorem rtFold_fix (files : FileSys) (names : List String) (led : Ledger)
    (hgood : ∀ f ∈ names, f ≠ "conn.log" → ∀ lines, lookupA files f = some (some lines) →
      ∃ v, lookupA led (rtPath f) = some v ∧ lines.length ≤ v) :
    ∀ (m : ConnMap), names.foldl (rtServiceStep files) (m, led) = (m, led) := by
  induction names with
  | nil => intro m; rfl
  | cons g rest ih =>
    intro m
    rw [List.foldl_cons]
    have hstep : rtServiceStep files (m, led) g = (m, led) := by
      by_cases hg : g = "conn.log"
      · rw [rtServiceStep, if_pos hg]
      · rw [rtServiceStep, if_neg hg]
        cases hl : lookupA files g with
        | none => rfl
        | some content =>
          cases content with
          | none => rfl
          | some lines =>
            obtain ⟨v, hv, hle⟩ := hgood g (List.mem_cons_self g rest) hg lines hl
            dsimp only
            simp only [hv, Option.getD_some]
            rw [processRTServiceLog_fix _ lines v m hle]
            dsimp only
            rw [setA_self led _ v hv]
    rw [hstep]
    exact ih (fun f hf => hgood f (List.mem_cons_of_mem g hf)) m

theorem connLog_mem_logNames (files : FileSys) (x : Option (List String))
    (h : lookupA files "conn.log" = some x) :
    "conn.log" ∈ (files.map Prod.fst).filter isRtLogName := by
  apply List.mem_filter.mpr
  exact ⟨List.mem_map_of_mem Prod.fst (lookupA_mem files _ _ h), by decide⟩

/-- C7: running the real-time read path twice over the same spool directory
(no file grew in between) yields zero new connections on the second run and an
unchanged ledger; the hypothesis says the directory listing has no two names
mapping to the same joined path (true of a real directory). -/
theorem c7_thm (files : FileSys) (pos : Ledger)
    (hnd : (((files.map Prod.fst).filter isRtLogName).map rtPath).Nodup) :
    (extract_real_time_connection_data (some files)
      (extract_real_time_connection_data (some files) pos).ledger).newConns = 0 ∧
    (extract_real_time_connection_data (some files)
      (extract_real_time_connection_data (some files) pos).ledger).ledger =
      (extract_real_time_connection_data (some files) pos).ledger := by
  have hinj : ∀ f ∈ (files.map Prod.fst).filter isRtLogName,
      ∀ g ∈ (files.map Prod.fst).filter isRtLogName, rtPath f = rtPath g → f = g :=
    List.inj_on_of_nodup_map hnd
  have hndl : ((files.map Prod.fst).filter isRtLogName).Nodup := List.Nodup.of_map _ hnd
  by_cases hempty : ((files.map Prod.fst).filter isRtLogName).isEmpty
  · have h1 : extract_real_time_connection_data (some files) pos = ⟨0, pos, []⟩ := by
      simp only [extract_real_time_connection_data]
      rw [if_pos hempty]
    rw [h1]
    have h2 : extract_real_time_connection_data (some files) pos = ⟨0, pos, []⟩ := h1
    simp only [extract_real_time_connection_data]
    rw [if_pos hempty]
    exact ⟨rfl, rfl⟩
  · have hunfold : ∀ (p : Ledger), extract_real_time_connection_data (some files) p =
        ⟨(rtConnStage files p).2.1,
         (((files.map Prod.fst).filter isRtLogName).foldl (rtServiceStep files)
           ((rtConnStage files p).1, (rtConnStage files p).2.2)).2,
         (((files.map Prod.fst).filter isRtLogName).foldl (rtServiceStep files)
           ((rtConnStage files p).1, (rtConnStage files p).2.2)).1⟩ := by
      intro p
      simp only [extract_real_time_connection_data]
      rw [if_neg hempty]
    have hled1eq : (extract_real_time_connection_data (some files) pos).ledger =
        (((files.map Prod.fst).filter isRtLogName).foldl (rtServiceStep files)
          ((rtConnStage files pos).1, (rtConnStage files pos).2.2)).2 := by
      rw [hunfold pos]
    have hgood : ∀ f ∈ (files.map Prod.fst).filter isRtLogName, f ≠ "conn.log" →
        ∀ lines, lookupA files f = some (some lines) →
        ∃ v, lookupA (extract_real_time_connection_data (some files) pos).ledger (rtPath f) =
          some v ∧ lines.length ≤ v := by
      intro f hf hfc lines hl
      rw [hled1eq]
      exact rtFold_good files _ hinj hndl _ f hf hfc lines hl
    have hconn2 : rtConnStage files (extract_real_time_connection_data (some files) pos).ledger
        = ([], 0, (extract_real_time_connection_data (some files) pos).ledger) := by
      cases hl : lookupA files "conn.log" with
      | none => simp only [rtConnStage, hl]
      | some content =>
        cases content with
        | none => simp only [rtConnStage, hl]
        | some lines =>
          have hconn : ∃ v,
              lookupA (extract_real_time_connection_data (some files) pos).ledger
                (rtPath "conn.log") = some v ∧ lines.length ≤ v := by
            rw [hled1eq]
            have hpres := rtFold_ledger_preserve files ((files.map Prod.fst).filter isRtLogName)
              ((rtConnStage files pos).1, (rtConnStage files pos).2.2) (rtPath "conn.log")
              (fun g hg hgc heq =>
                hgc (hinj g hg "conn.log" (connLog_mem_logNames files _ hl) heq))
            rw [hpres]
            exact rtConnStage_good files pos lines hl
          obtain ⟨v, hv, hle⟩ := hconn
          exact rtConnStage_fix_readable files _ lines v hl hv hle
    constructor
    · rw [hunfold (extract_real_time_connection_data (some files) pos).ledger]
      show (rtConnStage files (extract_real_time_connection_data (some files) pos).ledger).2.1 = 0
      rw [hconn2]
    · rw [hunfold (extract_real_time_connection_data (some files) pos).ledger]
      show (((files.map Prod.fst).filter isRtLogName).foldl (rtServiceStep files)
          ((rtConnStage files (extract_real_time_connection_data (some files) pos).ledger).1,
           (rtConnStage files (extract_real_time_connection_data (some files) pos).ledger).2.2)).2
        = (extract_real_time_connection_data (some files) pos).ledger
      rw [hconn2]
      rw [rtFold_fix files _ _ hgood []]

theorem c7_witness :
    ((((exRtDir.map Prod.fst).filter isRtLogName).map rtPath).Nodup) ∧
    (extract_real_time_connection_data (some exRtDir)
      (extract_real_time_connection_data (some exRtDir) []).ledger).newConns = 0 ∧
    (extract_real_time_connection_data (some exRtDir)
      (extract_real_time_connection_data (some exRtDir) []).ledger).ledger =
      (extract_real_time_connection_data (some exRtDir) []).ledger :=
  ⟨by decide, (c7_thm exRtDir [] (by decide)).1, (c7_thm exRtDir [] (by decide)).2⟩

/-! ## C9 — unreadable files are skipped, the pass continues -/

theorem read_log_file_none_eq_empty :
    read_log_file none = read_log_file (some []) := rfl

theorem lookupA_replace_read (pre post : FileSys) (nm : String) (f : String) :
    read_log_file ((lookupA (pre ++ (nm, none) :: post) f).getD none) =
    read_log_file ((lookupA (pre ++ (nm, some []) :: post) f).getD none) := by
  induction pre with
  | nil =>
    by_cases hf : nm = f
    · have h1 : lookupA (((nm, none) :: post : FileSys)) f = some none := by
        rw [lookupA, if_pos hf]
      have h2 : lookupA (((nm, some []) :: post : FileSys)) f = some (some []) := by
        rw [lookupA, if_pos hf]
      rw [List.nil_append, List.nil_append, h1, h2]
      rfl
    · have h1 : lookupA (((nm, none) :: post : FileSys)) f = lookupA post f := by
        rw [lookupA, if_neg hf]
      have h2 : lookupA (((nm, some []) :: post : FileSys)) f = lookupA post f := by
        rw [lookupA, if_neg hf]
      rw [List.nil_append, List.nil_append, h1, h2]
  | cons p pre' ih =>
    by_cases hp : p.1 = f
    · rw [List.cons_append, List.cons_append, lookupA, lookupA, if_pos hp, if_pos hp]
    · rw [List.cons_append, List.cons_append, lookupA, lookupA, if_neg hp, if_neg hp]
      exact ih

theorem keys_replace (pre post : FileSys) (nm : String) :
    (pre ++ (nm, (none : Option (List String))) :: post).map Prod.fst =
    (pre ++ (nm, some ([] : List String)) :: post).map Prod.fst := by
  simp

theorem extractDateDir_congr (st : BatchState) (pre post : FileSys) (nm : String) :
    extractDateDir st (pre ++ (nm, none) :: post) =
    extractDateDir st (pre ++ (nm, some []) :: post) := by
  have hkeys := keys_replace pre post nm
  have hnames : connLogNames (pre ++ (nm, none) :: post) =
      connLogNames (pre ++ (nm, some []) :: post) := by
    rw [connLogNames, connLogNames, hkeys]
  have hCR : (connLogNames (pre ++ (nm, none) :: post)).foldl
        (fun acc f => acc ++ (read_log_file ((lookupA (pre ++ (nm, none) :: post) f).getD none)).1)
        st.connRecords =
      (connLogNames (pre ++ (nm, some []) :: post)).foldl
        (fun acc f =>
          acc ++ (read_log_file ((lookupA (pre ++ (nm, some []) :: post) f).getD none)).1)
        st.connRecords := by
    rw [hnames]
    exact List.foldl_ext _ _ st.connRecords
      (fun acc f _ => by rw [lookupA_replace_read pre post nm f])
  have henrich : ∀ m : ConnMap, enrich_with_protocol_logs (pre ++ (nm, none) :: post) m =
      enrich_with_protocol_logs (pre ++ (nm, some []) :: post) m := by
    intro m
    rw [enrich_with_protocol_logs, enrich_with_protocol_logs]
    apply List.foldl_ext
    intro m' pp _
    rw [hkeys]
    apply List.foldl_ext
    intro m'' f _
    rw [lookupA_replace_read pre post nm f]
  simp only [extractDateDir]
  rw [hCR, henrich]

theorem c9_batch (dirsA dirsB : List FileSys) (pre post : FileSys) (nm : String) :
    extract_connection_data (dirsA ++ (pre ++ (nm, none) :: post) :: dirsB) =
    extract_connection_data (dirsA ++ (pre ++ (nm, some []) :: post) :: dirsB) := by
  simp only [extract_connection_data]
  rw [List.foldl_append, List.foldl_append, List.foldl_cons, List.foldl_cons,
    extractDateDir_congr]

theorem lookupA_skip {β : Type _} (pre post : List (String × β)) (nm : String) (x : β)
    (f : String) (hf : f ≠ nm) :
    lookupA (pre ++ (nm, x) :: post) f = lookupA (pre ++ post) f := by
  induction pre with
  | nil =>
    rw [List.nil_append, List.nil_append, lookupA, if_neg (fun h => hf h.symm)]
  | cons p pre' ih =>
    rw [List.cons_append, List.cons_append, lookupA, lookupA]
    by_cases hp : p.1 = f
    · rw [if_pos hp, if_pos hp]
    · rw [if_neg hp, if_neg hp]
      exact ih

theorem lookupA_append_none_left {β : Type _} (pre post : List (String × β)) (k : String)
    (h : lookupA (pre ++ post) k = none) : lookupA pre k = none := by
  cases hp : lookupA pre k with
  | none => rfl
  | some v =>
    rw [lookupA_append_of_some _ _ _ _ hp] at h
    exact absurd h (by simp)

theorem lookupA_replace_self {β : Type _} (pre post : List (String × β)) (nm : String) (x : β)
    (h : lookupA pre nm = none) : lookupA (pre ++ (nm, x) :: post) nm = some x := by
  rw [lookupA_append_of_none _ _ _ h, lookupA, if_pos rfl]

theorem not_mem_keys_of_lookupA_none {β : Type _} (l : List (String × β)) (k : String)
    (h : lookupA l k = none) : k ∉ l.map Prod.fst := by
  induction l with
  | nil => simp
  | cons p rest ih =>
    rw [lookupA] at h
    by_cases hp : p.1 = k
    · rw [if_pos hp] at h
      exact absurd h (by simp)
    · rw [if_neg hp] at h
      simp only [List.map_cons, List.mem_cons, not_or]
      exact ⟨fun hk => hp hk.symm, ih h⟩

theorem rtServiceStep_congr (d1 d2 : FileSys) (acc : ConnMap × Ledger) (f : String)
    (h : lookupA d1 f = lookupA d2 f) :
    rtServiceStep d1 acc f = rtServiceStep d2 acc f := by
  rw [rtServiceStep, rtServiceStep, h]

theorem rtConnStage_congr (d1 d2 : FileSys) (pos : Ledger)
    (h : lookupA d1 "conn.log" = lookupA d2 "conn.log") :
    rtConnStage d1 pos = rtConnStage d2 pos := by
  rw [rtConnStage, rtConnStage, h]

theorem rtFold_congr (d1 d2 : FileSys) (names : List String)
    (h : ∀ f ∈ names, lookupA d1 f = lookupA d2 f) :
    ∀ acc, names.foldl (rtServiceStep d1) acc = names.foldl (rtServiceStep d2) acc := by
  induction names with
  | nil => intro acc; rfl
  | cons g rest ih =>
    intro acc
    rw [List.foldl_cons, List.foldl_cons,
      rtServiceStep_congr d1 d2 acc g (h g (List.mem_cons_self _ _))]
    exact ih (fun f hf => h f (List.mem_cons_of_mem g hf)) _

theorem rtServiceStep_unreadable (d : FileSys) (acc : ConnMap × Ledger) (f : String)
    (h : lookupA d f = some none) : rtServiceStep d acc f = acc := by
  rw [rtServiceStep]
  by_cases hf : f = "conn.log"
  · rw [if_pos hf]
  · rw [if_neg hf, h]

theorem c9_rt (pre post : FileSys) (nm : String) (pos : Ledger)
    (hk : lookupA (pre ++ post) nm = none)
    (hne : ¬(((pre ++ post).map Prod.fst).filter isRtLogName).isEmpty = true) :
    extract_real_time_connection_data (some (pre ++ (nm, none) :: post)) pos =
    extract_real_time_connection_data (some (pre ++ post)) pos := by
  have hkpre := lookupA_append_none_left pre post nm hk
  have hnm1 : lookupA (pre ++ (nm, (none : Option (List String))) :: post) nm = some none :=
    lookupA_replace_self pre post nm none hkpre
  have hlook : ∀ f, f ≠ nm →
      lookupA (pre ++ (nm, (none : Option (List String))) :: post) f =
      lookupA (pre ++ post) f :=
    fun f hf => lookupA_skip pre post nm none f hf
  have hA : ∀ f ∈ (pre.map Prod.fst).filter isRtLogName, f ≠ nm := by
    intro f hf he
    exact not_mem_keys_of_lookupA_none pre nm hkpre (he ▸ (List.mem_filter.mp hf).1)
  have hB : ∀ f ∈ (post.map Prod.fst).filter isRtLogName, f ≠ nm := by
    intro f hf he
    have hkpost : lookupA post nm = none := by
      rw [lookupA_append_of_none _ _ _ hkpre] at hk
      exact hk
    exact not_mem_keys_of_lookupA_none post nm hkpost (he ▸ (List.mem_filter.mp hf).1)
  have hnames2 : ((pre ++ post).map Prod.fst).filter isRtLogName =
      (pre.map Prod.fst).filter isRtLogName ++ (post.map Prod.fst).filter isRtLogName := by
    simp [List.filter_append]
  have hcs : rtConnStage (pre ++ (nm, none) :: post) pos = rtConnStage (pre ++ post) pos := by
    by_cases hcn : nm = "conn.log"
    · have h1 : lookupA (pre ++ (nm, (none : Option (List String))) :: post) "conn.log" =
          some none := by rw [← hcn]; exact hnm1
      have h2 : lookupA (pre ++ post) "conn.log" = none := by rw [← hcn]; exact hk
      rw [rtConnStage, rtConnStage, h1, h2]
    · exact rtConnStage_congr _ _ pos (hlook "conn.log" (fun h => hcn h.symm))
  have hafold := rtFold_congr (pre ++ (nm, none) :: post) (pre ++ post)
    ((pre.map Prod.fst).filter isRtLogName) (fun f hf => hlook f (hA f hf))
  have hbfold := rtFold_congr (pre ++ (nm, none) :: post) (pre ++ post)
    ((post.map Prod.fst).filter isRtLogName) (fun f hf => hlook f (hB f hf))
  by_cases hrt : isRtLogName nm = true
  · have hnames1 : ((pre ++ (nm, (none : Option (List String))) :: post).map Prod.fst).filter
        isRtLogName =
        (pre.map Prod.fst).filter isRtLogName ++
          nm :: (post.map Prod.fst).filter isRtLogName := by
      simp [List.filter_append, List.filter_cons, hrt]
    have hne1 : ¬(((pre ++ (nm, (none : Option (List String))) :: post).map Prod.fst).filter
        isRtLogName).isEmpty = true := by
      rw [hnames1]
      simp
    have hfold : ∀ acc,
        ((pre.map Prod.fst).filter isRtLogName ++
          nm :: (post.map Prod.fst).filter isRtLogName).foldl
          (rtServiceStep (pre ++ (nm, none) :: post)) acc =
        ((pre.map Prod.fst).filter isRtLogName ++
          (post.map Prod.fst).filter isRtLogName).foldl
          (rtServiceStep (pre ++ post)) acc := by
      intro acc
      rw [List.foldl_append, List.foldl_cons,
        rtServiceStep_unreadable (pre ++ (nm, none) :: post) _ nm hnm1,
        hafold acc, hbfold _, ← List.foldl_append]
    simp only [extract_real_time_connection_data]
    rw [if_neg hne1, if_neg hne]
    rw [hcs, hnames1, hnames2, hfold]
  · have hrt' : isRtLogName nm = false := by
      cases h : isRtLogName nm
      · rfl
      · exact absurd h hrt
    have hnames1 : ((pre ++ (nm, (none : Option (List String))) :: post).map Prod.fst).filter
        isRtLogName =
        (pre.map Prod.fst).filter isRtLogName ++ (post.map Prod.fst).filter isRtLogName := by
      simp [List.filter_append, List.filter_cons, hrt']
    have hne1 : ¬(((pre ++ (nm, (none : Option (List String))) :: post).map Prod.fst).filter
        isRtLogName).isEmpty = true := by
      rw [hnames1, ← hnames2]
      exact hne
    have hfold : ∀ acc,
        ((pre.map Prod.fst).filter isRtLogName ++
          (post.map Prod.fst).filter isRtLogName).foldl
          (rtServiceStep (pre ++ (nm, none) :: post)) acc =
        ((pre.map Prod.fst).filter isRtLogName ++
          (post.map Prod.fst).filter isRtLogName).foldl
          (rtServiceStep (pre ++ post)) acc := by
      intro acc
      rw [List.foldl_append, hafold acc, hbfold _, ← List.foldl_append]
    simp only [extract_real_time_connection_data]
    rw [if_neg hne1, if_neg hne]
    rw [hcs, hnames1, hnames2, hfold]

/-- C9: no single file-access failure aborts the extraction-and-enrichment
pass, and the remaining files are still processed — in the batch pass as in
the real-time pass.  Batch: a directory in which one file is unreadable
(content `none`) yields exactly the same extraction result as the same
directory with that file readable but empty, so the unreadable file
contributes nothing and everything else proceeds (the missing
`read_log_file` is modelled from the spec, which makes the parser absorb the
failure).  Real-time: a spool directory containing an unreadable file (whose
name is not otherwise listed) yields the same result as the directory without
that file. -/
theorem c9_thm :
    (∀ (dirsA dirsB : List FileSys) (pre post : FileSys) (nm : String),
      extract_connection_data (dirsA ++ (pre ++ (nm, none) :: post) :: dirsB) =
      extract_connection_data (dirsA ++ (pre ++ (nm, some []) :: post) :: dirsB)) ∧
    (∀ (pre post : FileSys) (nm : String) (pos : Ledger),
      lookupA (pre ++ post) nm = none →
      ¬(((pre ++ post).map Prod.fst).filter isRtLogName).isEmpty = true →
      extract_real_time_connection_data (some (pre ++ (nm, none) :: post)) pos =
      extract_real_time_connection_data (some (pre ++ post)) pos) :=
  ⟨c9_batch, c9_rt⟩

theorem c9_witness :
    extract_connection_data [("conn.01:00:00-02:00:00.log.gz", none) :: exBatchDirRest] =
      extract_connection_data
        [("conn.01:00:00-02:00:00.log.gz", some []) :: exBatchDirRest] ∧
    extract_real_time_connection_data (some (("broken.log", none) :: exRtDir)) [] =
      extract_real_time_connection_data (some exRtDir) [] :=
  ⟨c9_thm.1 [] [] [] exBatchDirRest "conn.01:00:00-02:00:00.log.gz",
   c9_thm.2 [] exRtDir "broken.log" [] (by decide) (by decide)⟩

end Zeek
